import Mathlib

/-!
Verification development for the Nyx language interpreter
(tokenizer - parser - resolver - tree-walking evaluator written in Rust).

This file gives a shallow embedding of the evaluation pipeline:

* `LiteralValue`, `Expr`, `Stmt` mirror the tagged unions of
  `src/lang/expr.rs` and `src/lang/stmt.rs`.
* Runtime numbers are IEEE doubles in the source; they are modelled as
  rationals here.  Every numeric computation exercised by the theorems
  below uses only small integer or dyadic literals and the operations
  comparison-with-zero, truncation-to-usize and exact field arithmetic,
  on which `f64` agrees with the rationals, and no theorem depends on
  rounding, overflow, infinities or NaN.
* The shared mutable environments (`Rc<RefCell<...>>` in
  `src/lang/environment.rs`) are modelled by a heap: `VMState.frames`
  is an addressed store of frames, and an `Environment` value is the
  address of its frame.  `enclose` allocates a fresh frame whose
  `enclosing` field is the old address, exactly like the source, so
  sharing and in-place mutation are preserved.  Class-instance field
  vectors (`Rc<RefCell<Vec<(String, LiteralValue)>>>`) live in the
  `cells` store in the same way.
* `HashMap` values are modelled as association lists with
  insert-or-overwrite semantics; no claim depends on hash iteration
  order.
* Failures: `NyxError.fatal` models `PanicHandler::panic` (a Rust
  `panic!`, which aborts the process) and `NyxError.err` models a
  `Result::Err` return.  The distinction matters because
  `run_function` silently drops `Err` results of argument evaluation
  (`if let Ok(literal) = ...`) while a panic always aborts.  Message
  punctuation is simplified (no braces or quotes) but the message
  structure follows the source.
* The evaluator is fuel-indexed: `fuel` bounds the recursion depth and
  the number of loop iterations; running out of fuel is reported as a
  distinguished error that no theorem ever treats as program
  behaviour.
-/

set_option maxHeartbeats 1600000

namespace Nyx

/-- Token kinds, mirroring `TokenType` in `src/lang/tokenizer.rs`.  Only
the `token_type` and `lexeme` fields of a `Token` influence evaluation;
`line`, `column` and the literal payload feed error locations and the
literal constructor only, so tokens are reduced to what the embedded
syntax nodes keep: names (`String`) and operator kinds (`TokType`). -/
inductive TokType where
  | LeftParen | RightParen | LeftBrace | RightBrace
  | Comma | Dot | Minus | Plus | Semicolon | Slash | Star
  | ColonColon | RightBracket | LeftBracket | Arith
  | Bang | BangEqual | Equal | EqualEqual
  | Greater | GreaterEqual | Less | LessEqual
  | PlusPlus | MinusMinus
  | Identifier | StringLit | Number
  | And | Clazz | Else | False | Fc | For | ForEach | In
  | Continue | Break | If | Elif | Null | Or | Write | Return
  | Super | This | True | Let | Const | While | Extends | Std | Lib
  | Eof
deriving DecidableEq, Repr

/-- Rendering of a token kind for error messages, standing in for the
`Debug` formatting (`{:?}`) of `TokenType` in the source. -/
def TokType.debugName : TokType → String
  | .LeftParen => "LeftParen" | .RightParen => "RightParen"
  | .LeftBrace => "LeftBrace" | .RightBrace => "RightBrace"
  | .Comma => "Comma" | .Dot => "Dot" | .Minus => "Minus" | .Plus => "Plus"
  | .Semicolon => "Semicolon" | .Slash => "Slash" | .Star => "Star"
  | .ColonColon => "ColonColon" | .RightBracket => "RightBracket"
  | .LeftBracket => "LeftBracket" | .Arith => "Arith"
  | .Bang => "Bang" | .BangEqual => "BangEqual" | .Equal => "Equal"
  | .EqualEqual => "EqualEqual" | .Greater => "Greater"
  | .GreaterEqual => "GreaterEqual" | .Less => "Less"
  | .LessEqual => "LessEqual" | .PlusPlus => "PlusPlus"
  | .MinusMinus => "MinusMinus" | .Identifier => "Identifier"
  | .StringLit => "StringLit" | .Number => "Number"
  | .And => "And" | .Clazz => "Clazz" | .Else => "Else" | .False => "False"
  | .Fc => "Fc" | .For => "For" | .ForEach => "ForEach" | .In => "In"
  | .Continue => "Continue" | .Break => "Break" | .If => "If"
  | .Elif => "Elif" | .Null => "Null" | .Or => "Or" | .Write => "Write"
  | .Return => "Return" | .Super => "Super" | .This => "This"
  | .True => "True" | .Let => "Let" | .Const => "Const" | .While => "While"
  | .Extends => "Extends" | .Std => "Std" | .Lib => "Lib" | .Eof => "Eof"

/-- Failure kinds of the interpreter.  `fatal` is `PanicHandler::panic`
(the process aborts, so any code after a `.panic()` call in the source
is dead and is not modelled); `err` is an ordinary `Result::Err`
propagated with `?`.  `fuel` marks exhaustion of the model's recursion
budget and corresponds to no source behaviour. -/
inductive NyxError where
  | fatal (msg : String)
  | err (msg : String)
  | fuel
deriving DecidableEq, Repr

/-- Host callables of the `list` standard-library module
(`src/lang/libraries/list.rs`).  The other modules (`os`, `math`,
`utils`, `string`) wrap host I/O or float intrinsics that no claim
touches; importing them is modelled as a fatal error so that no theorem
can silently rely on a stubbed body. -/
inductive NativeFn where
  | listGen | listAdd | listSize | listReverse | listGet | listPop | listRemove
deriving DecidableEq, Repr

mutual
/-- Runtime values, mirroring `LiteralValue` in `src/lang/expr.rs`.
`Number` carries a rational standing in for the `f64`;
`ClassInstance.fields` is the address of its field vector in
`VMState.cells`; `FunctionImpl.parent_env` is the address of the
captured environment frame. -/
inductive LiteralValue where
  | Number (x : ℚ)
  | StringValue (s : String)
  | Callable (c : CallableImpl)
  | True
  | False
  | Null
  | Clazz (name : String) (methods : List (String × FunctionImpl))
      (superclass : Option LiteralValue)
  | ClassInstance (cls : LiteralValue) (fields : Nat)
  | Module (name : String) (methods : List (String × NativeFn))
      (constants : Option (List (String × LiteralValue)))
  | List (xs : List LiteralValue)

/-- Mirrors `CallableImpl` in `src/lang/expr.rs`. -/
inductive CallableImpl where
  | Function (fc : FunctionImpl)
  | NativeFunction (nf : NativeFunctionImpl)

/-- Mirrors `FunctionImpl` in `src/lang/expr.rs`; `parent_env` is the
address of the captured frame (the source stores an `Environment`
whose `values` are shared through `Rc`, which is exactly an address
into the frame store here). -/
inductive FunctionImpl where
  | mk (name : String) (arity : Nat) (parent_env : Nat)
      (params : List String) (body : List Stmt)

/-- Mirrors `NativeFunctionImpl` in `src/lang/expr.rs`. -/
inductive NativeFunctionImpl where
  | mk (name : String) (fc : NativeFn)

/-- Expression trees, mirroring `Expr` in `src/lang/expr.rs`.  Tokens
are reduced to their lexemes / kinds (see `TokType`). -/
inductive Expr where
  | AnonFunction (id : Nat) (arguments : List String) (body : List Stmt)
  | Assign (id : Nat) (name : String) (value : Expr)
  | Binary (id : Nat) (left : Expr) (operator : TokType) (opLexeme : String)
      (right : Expr)
  | Call (id : Nat) (module : Option String) (call : Expr)
      (arguments : List Expr)
  | Get (id : Nat) (object : Expr) (name : String)
  | Grouping (id : Nat) (expression : Expr)
  | Literal (id : Nat) (value : LiteralValue)
  | Logical (id : Nat) (left : Expr) (operator : TokType) (right : Expr)
  | Set (id : Nat) (object : Expr) (name : String) (value : Expr)
  | This (id : Nat)
  | Super (id : Nat) (method : String)
  | Unary (id : Nat) (operator : TokType) (right : Expr)
  | Variable (id : Nat) (name : String)
  | ModuleProperty (id : Nat) (module : String) (name : String)

/-- Statement trees, mirroring `Stmt` in `src/lang/stmt.rs`.  For a
`const` declaration the parser has already rewritten the name token to
`__const__<name>` (see `NyxParser::const_declaration`), so the `name`
stored in `Const` carries that prefix. -/
inductive Stmt where
  | Expression (expr : Expr)
  | Write (exprs : List Expr)
  | Let (name : String) (init : Expr)
  | Const (name : String) (init : Expr)
  | Block (statements : List Stmt)
  | Clazz (name : String) (methods : List Stmt) (superclass : Option Expr)
  | If (predicate : Expr) (thenB : Stmt) (elf : Option Stmt) (els : Option Stmt)
  | Elif (predicate : Expr) (thenB : Stmt)
  | While (condition : Expr) (body : Stmt)
  | Function (name : String) (params : List String) (body : List Stmt)
  | Return (value : Option Expr)
  | Std (module : String) (fc : Option (List String))
  | Break
  | Continue
  | Iteration (var : String) (value : String) (body : Stmt)
end

namespace FunctionImpl

def name : FunctionImpl → String | .mk n _ _ _ _ => n
def arity : FunctionImpl → Nat | .mk _ a _ _ _ => a
def parent_env : FunctionImpl → Nat | .mk _ _ p _ _ => p
def params : FunctionImpl → List String | .mk _ _ _ ps _ => ps
def body : FunctionImpl → List Stmt | .mk _ _ _ _ b => b

/-- Replace the captured environment address, as done by the `Get`
evaluation and by class construction (`init.parent_env = ...`). -/
def withParent : FunctionImpl → Nat → FunctionImpl
  | .mk n a _ ps b, p => .mk n a p ps b

end FunctionImpl

/-- First-match association-list lookup, modelling `HashMap::get`. -/
def aget {α : Type} (l : List (String × α)) (k : String) : Option α :=
  match l with
  | [] => none
  | (k2, v) :: rest => if k2 = k then some v else aget rest k

/-- Insert-or-overwrite, modelling `HashMap::insert` (the returned
`Option` is the previous value, which `assign_internal` inspects with
`.is_some()`). -/
def ainsert {α : Type} (l : List (String × α)) (k : String) (v : α) :
    Option α × List (String × α) :=
  match l with
  | [] => (none, [(k, v)])
  | (k2, w) :: rest =>
    if k2 = k then (some w, (k2, v) :: rest)
    else
      let (old, rest2) := ainsert rest k v
      (old, (k2, w) :: rest2)

/-- Insert discarding the previous value. -/
def aput {α : Type} (l : List (String × α)) (k : String) (v : α) :
    List (String × α) :=
  (ainsert l k v).2

/-- Natural-number-keyed lookup (the resolver locals map,
`HashMap<usize, usize>`). -/
def nget (l : List (Nat × Nat)) (k : Nat) : Option Nat :=
  match l with
  | [] => none
  | (k2, v) :: rest => if k2 = k then some v else nget rest k

/-- Mirrors `LiteralValue::bool` in `src/lang/expr.rs`. -/
def LiteralValue.bool (b : Bool) : LiteralValue :=
  if b then .True else .False

/-- Structural equality of runtime values, mirroring
`impl PartialEq for LiteralValue` in `src/lang/expr.rs`: numbers by
value, strings by bytes, user functions by (name, arity), natives by
name, the unit tags by tag, and every other pairing (including
`Clazz`, `ClassInstance`, `Module` and `List` values) is `false`. -/
def litEq : LiteralValue → LiteralValue → Bool
  | .Number x, .Number y => decide (x = y)
  | .Callable (.Function (.mk n a _ _ _)),
    .Callable (.Function (.mk n2 a2 _ _ _)) => n = n2 && a = a2
  | .Callable (.NativeFunction (.mk n _)),
    .Callable (.NativeFunction (.mk n2 _)) => n = n2
  | .StringValue x, .StringValue y => x = y
  | .True, .True => true
  | .False, .False => true
  | .Null, .Null => true
  | _, _ => false

/-- Mirrors `LiteralValue::truthy`.  `Callable`, `Clazz` and the
remaining variants panic in the source, which aborts the process; the
value returned after the panic is dead code and is not modelled. -/
def LiteralValue.truthy : LiteralValue → Except NyxError LiteralValue
  | .Number x => .ok (if x = 0 then .False else .True)
  | .StringValue s => .ok (if s.isEmpty then .False else .True)
  | .True => .ok .True
  | .False => .ok .False
  | .Null => .ok .False
  | .Callable _ => .error (.fatal "A Callable should not be used as a boolean value.")
  | .Clazz _ _ _ => .error (.fatal "A Clazz should not be used as a boolean value.")
  | _ => .error (.fatal "Object is not valid as a boolean value.")

/-- Mirrors `LiteralValue::is_false` (the complement of truthiness used
by unary `!`). -/
def LiteralValue.is_false : LiteralValue → Except NyxError LiteralValue
  | .Number x => .ok (if x = 0 then .True else .False)
  | .StringValue s => .ok (if s.isEmpty then .True else .False)
  | .True => .ok .False
  | .False => .ok .True
  | .Null => .ok .True
  | .Callable _ => .error (.fatal "A Callable should not be used as a boolean value.")
  | .Clazz _ _ _ => .error (.fatal "A Clazz should not be used as a boolean value.")
  | _ => .error (.fatal "Object is not valid as a boolean value.")

mutual
/-- Rendering of values to text, mirroring `LiteralValue::convert`.
Numbers render through the rational standing in for the `f64` (exact
for the integer literals the theorems use); the quote characters of
the `Clazz` renderings are dropped.  The `ClassInstance` arm panics in
the source when the class field is not a `Clazz`; that arm is
unreachable and renders as the empty string here, matching the
post-panic `String::new()`. -/
def LiteralValue.convert : LiteralValue → String
  | .Number x => toString x
  | .StringValue x => x
  | .True => "true"
  | .False => "false"
  | .Null => "null"
  | .Callable (.Function (.mk name arity _ _ _)) => name ++ "/" ++ toString arity
  | .Callable (.NativeFunction (.mk name _)) => name
  | .Clazz name _ _ => "Clazz " ++ name
  | .ClassInstance cls _ =>
    match cls with
    | .Clazz name _ _ => "Clazz instance " ++ name
    | _ => ""
  | .List v =>
    if v.isEmpty then "[]"
    else "[" ++ String.intercalate ", " (convertList v) ++ "]"
  | .Module name _ _ => "Module " ++ name

/-- Helper for rendering list elements (the source maps
`LiteralValue::convert` over the vector). -/
def convertList : List LiteralValue → List String
  | [] => []
  | x :: rest => x.convert :: convertList rest
end

/-- Mirrors `LiteralValue::to_type`.  The unreachable
non-`Clazz`-class arm of `ClassInstance` yields the empty string,
matching the post-panic value. -/
def LiteralValue.to_type : LiteralValue → String
  | .Number _ => "number"
  | .Callable _ => "callable"
  | .StringValue _ => "string"
  | .True => "boolean"
  | .False => "boolean"
  | .Null => "null"
  | .Clazz _ _ _ => "Clazz"
  | .ClassInstance cls _ =>
    match cls with
    | .Clazz name _ _ => name
    | _ => ""
  | .List _ => "list"
  | .Module _ _ _ => "module"

/-! ## Environments

`Environment` in `src/lang/environment.rs` is a pair of an
`Rc<RefCell<HashMap>>` of local bindings and an optional reference to
the enclosing environment; cloning shares the bindings.  Here a frame
lives at an address in `VMState.frames` and an environment value IS
its address, so cloning (sharing) is address copying and `RefCell`
mutation is store update.  The resolver locals map is shared by `Rc`
across every frame of a run in the source; it is a single `locals`
field of the store here.  Class-instance field vectors live in
`cells` the same way. -/

/-- One environment frame: the local bindings and the enclosing
address. -/
structure Frame where
  values : List (String × LiteralValue)
  enclosing : Option Nat

/-- The mutable store of a run: environment frames, instance field
cells, the shared resolver map, and everything `write` printed (the
observable output, for stating behavioural facts). -/
structure VMState where
  frames : List Frame
  cells : List (List (String × LiteralValue))
  locals : List (Nat × Nat)
  output : List String

/-- Frame dereference.  A dangling address reads as an empty root
frame; the evaluator never fabricates addresses, so this default is
unreachable. -/
def frameOf (vm : VMState) (a : Nat) : Frame :=
  vm.frames.getD a ⟨[], none⟩

def setFrame (vm : VMState) (a : Nat) (f : Frame) : VMState :=
  { vm with frames := vm.frames.set a f }

/-- Mirrors `Environment::define`. -/
def envDefine (vm : VMState) (a : Nat) (name : String) (v : LiteralValue) :
    VMState :=
  setFrame vm a { frameOf vm a with values := aput (frameOf vm a).values name v }

/-- Mirrors `Environment::get_value` (current frame only, no chain
walk). -/
def getValue (vm : VMState) (a : Nat) (name : String) : Option LiteralValue :=
  aget (frameOf vm a).values name

/-- Mirrors `Environment::constant` (checks the namespaced key in the
current frame only). -/
def envConstant (vm : VMState) (a : Nat) (name : String) : Bool :=
  (aget (frameOf vm a).values ("__const__" ++ name)).isSome

/-- Mirrors `Environment::enclose`: a fresh empty frame whose
`enclosing` is the old address (the locals map is shared, which the
store models by keeping a single copy). -/
def enclose (vm : VMState) (a : Nat) : VMState × Nat :=
  ({ vm with frames := vm.frames ++ [⟨[], some a⟩] }, vm.frames.length)

/-- The `distance.is_none()` branch of `Environment::internal`: walk
to the root and read there, preferring the namespaced constant entry.
The recursion is bounded by a gas counter: `enclose` only ever links a
frame to an older (smaller) address, so a walk from address `a`
traverses at most `a + 1` frames and the wrapper below supplies that
bound; gas exhaustion would require an ill-formed chain no execution
can produce and reads as an absent binding. -/
def internalGlobalAux (vm : VMState) (name : String) :
    Nat → Nat → Option LiteralValue
  | 0, _ => none
  | gas + 1, a =>
    match (frameOf vm a).enclosing with
    | none =>
      let vals := (frameOf vm a).values
      let ci := "__const__" ++ name
      if (aget vals ci).isNone then aget vals name else aget vals ci
    | some e => internalGlobalAux vm name gas e

def internalGlobal (vm : VMState) (a : Nat) (name : String) :
    Option LiteralValue :=
  internalGlobalAux vm name (a + 1) a

/-- The `Some(distance)` branch of `Environment::internal`: walk
exactly `distance` enclosing links; running off the chain is the
`Could not find variable` panic of the source. -/
def internalAt (vm : VMState) (a : Nat) (name : String) :
    Nat → Except NyxError (Option LiteralValue)
  | 0 => .ok (aget (frameOf vm a).values name)
  | d + 1 =>
    match (frameOf vm a).enclosing with
    | none =>
      .error (.fatal ("Could not find variable (" ++ name ++ ") at distance."))
    | some e => internalAt vm e name d

/-- Mirrors `Environment::get`: dispatch on the resolver distance for
this node id. -/
def envGet (vm : VMState) (a : Nat) (name : String) (id : Nat) :
    Except NyxError (Option LiteralValue) :=
  match nget vm.locals id with
  | none => .ok (internalGlobal vm a name)
  | some d => internalAt vm a name d

/-- Mirrors `Environment::get_this_instance`.  A missing locals entry
panics.  `distance - 1` is a `usize` subtraction: at distance 0 it
underflows, which aborts in a debug build and in a release build wraps
to `usize::MAX`, a distance no chain can satisfy, so the walk panics;
both are the fatal outcome modelled here. -/
def getThisInstance (vm : VMState) (a : Nat) (id : Nat) :
    Except NyxError (Option LiteralValue) :=
  match nget vm.locals id with
  | none => .error (.fatal "Could not find this even though super was defined.")
  | some 0 => .error (.fatal "Could not find variable (this) at distance.")
  | some (d + 1) => internalAt vm a "this" d

/-- The `distance.is_none()` branch of `Environment::assign_internal`:
walk to the root and insert there; the result reports whether a
previous binding existed (`insert(...).is_some()`).  Note the insert
happens even when it reports `false`.  Gas-bounded like
`internalGlobalAux`, with the same unreachable exhaustion default. -/
def assignGlobalWalkAux (vm : VMState) (name : String) (v : LiteralValue) :
    Nat → Nat → Bool × VMState
  | 0, _ => (false, vm)
  | gas + 1, a =>
    match (frameOf vm a).enclosing with
    | some e => assignGlobalWalkAux vm name v gas e
    | none =>
      let r := ainsert (frameOf vm a).values name v
      (r.1.isSome, setFrame vm a { frameOf vm a with values := r.2 })

def assignGlobalWalk (vm : VMState) (a : Nat) (name : String)
    (v : LiteralValue) : Bool × VMState :=
  assignGlobalWalkAux vm name v (a + 1) a

/-- The `Some(distance)` branch of `Environment::assign_internal`:
walk `distance` links and insert; the boolean result of the recursion
is discarded by the source, which returns `true` whenever a distance
was present, so only the store change is produced here. -/
def assignAt (vm : VMState) (a : Nat) (name : String) (v : LiteralValue) :
    Nat → Except NyxError VMState
  | 0 => .ok (envDefine vm a name v)
  | d + 1 =>
    match (frameOf vm a).enclosing with
    | none =>
      .error (.fatal ("Could not find variable (" ++ name ++ ") at distance."))
    | some e => assignAt vm e name v d

/-- Mirrors `Environment::assign`. -/
def envAssign (vm : VMState) (a : Nat) (name : String) (v : LiteralValue)
    (id : Nat) : Except NyxError (Bool × VMState) :=
  match nget vm.locals id with
  | none => .ok (assignGlobalWalk vm a name v)
  | some d => (assignAt vm a name v d).map (fun vm2 => (true, vm2))

/-- Mirrors `Environment::assign_global` (used by class declaration). -/
def assign_global (vm : VMState) (a : Nat) (name : String)
    (v : LiteralValue) : Bool × VMState :=
  assignGlobalWalk vm a name v

/-- Cell dereference for instance field vectors. -/
def cellOf (vm : VMState) (c : Nat) : List (String × LiteralValue) :=
  vm.cells.getD c []

def setCell (vm : VMState) (c : Nat) (fs : List (String × LiteralValue)) :
    VMState :=
  { vm with cells := vm.cells.set c fs }

/-- Allocate a fresh empty field vector (instance creation). -/
def allocCell (vm : VMState) : VMState × Nat :=
  ({ vm with cells := vm.cells ++ [[]] }, vm.cells.length)

/-! ## The `list` standard-library module (`src/lang/libraries/list.rs`) -/

/-- The `as usize` cast of an `f64`: truncation toward zero, saturating
at zero for negative values (and at `usize::MAX` above, which no list
length can reach and is therefore not modelled).  On the rational
stand-in, truncation of a non-negative value is the floor, computed as
the integer division of the (non-negative) numerator by the
denominator. -/
def ratAsUsize (x : ℚ) : Nat :=
  if x < 0 then 0 else x.num.toNat / x.den

namespace ListLib

/-- Mirrors `List::gen`. -/
def gen (_ : List LiteralValue) : Except NyxError LiteralValue :=
  .ok (.List [])

/-- Mirrors `List::add`. -/
def add (args : List LiteralValue) : Except NyxError LiteralValue :=
  if args.length < 2 then
    .error (.fatal "(list::add()) Should must have 2 arguments or more.")
  else
    match args with
    | .List array :: rest => .ok (.List (array ++ rest))
    | _ => .error (.fatal "(list::add()) First argument must be an list.")

/-- Mirrors `List::size`. -/
def size (args : List LiteralValue) : Except NyxError LiteralValue :=
  if args.isEmpty then
    .error (.fatal "(list::size()) Should must have 1 arguments.")
  else
    match args with
    | .List list :: _ => .ok (.Number list.length)
    | _ => .error (.fatal "(list::size()) First argument must be an list.")

/-- Mirrors `List::reverse`. -/
def reverse (args : List LiteralValue) : Except NyxError LiteralValue :=
  if args.length ≠ 1 then
    .error (.fatal "(list::reverse()) Should must have 1 arguments.")
  else
    match args with
    | .List list :: _ => .ok (.List list.reverse)
    | _ => .error (.fatal "(list::reverse()) First argument must be an list.")

/-- Mirrors `List::get`.  The index expression is
`*num as usize - 1`, a `usize` subtraction: when the cast truncates to
zero (any `num` with `0 < num < 1` or `num < 0`; `num == 0.0` is
caught first) the subtraction underflows, which aborts in a debug
build and in a release build wraps to `usize::MAX`, an index
`Vec::get` rejects, reaching the out-of-range panic; both outcomes are
the fatal error modelled here. -/
def get (args : List LiteralValue) : Except NyxError LiteralValue :=
  if args.length ≠ 2 then
    .error (.fatal "(list::get()) Should must have 2 arguments.")
  else
    match args with
    | [.List list, .Number num] =>
      if num ≠ 0 then
        match ratAsUsize num with
        | 0 =>
          .error (.fatal "(list::get()) Index must be less than the size of the list.")
        | t + 1 =>
          match list.get? t with
          | some i => .ok (.List [i, .Number num])
          | none =>
            .error (.fatal "(list::get()) Index must be less than the size of the list.")
      else .error (.fatal "(list::get()) Index must be greater than 0.")
    | _ =>
      .error (.fatal "(list::get()) First argument must be an list or the second argument must be a number.")

/-- Mirrors `List::pop`. -/
def pop (args : List LiteralValue) : Except NyxError LiteralValue :=
  if args.length ≠ 1 then
    .error (.fatal "(list::pop()) Should must have 1 argument.")
  else
    match args with
    | .List list :: _ =>
      if list.isEmpty then .ok .Null else .ok (.List (list.dropLast))
    | _ => .error (.fatal "(list::pop()) First argument must be an list.")

/-- Mirrors `List::remove`; the same `usize` underflow note as
`ListLib.get` applies to its index expression. -/
def remove (args : List LiteralValue) : Except NyxError LiteralValue :=
  if args.length ≠ 2 then
    .error (.fatal "(list::remove()) Should must have 2 arguments.")
  else
    match args with
    | [.List list, .Number num] =>
      match ratAsUsize num with
      | 0 =>
        .error (.fatal "(list::remove()) Index must be less than the size of the list.")
      | t + 1 =>
        match list.get? t with
        | some v => .ok v
        | none =>
          .error (.fatal "(list::remove()) Index must be less than the size of the list.")
    | _ => .error (.fatal "(list::remove()) First argument must be an list.")

end ListLib

/-- Dispatch a native callable to its host body. -/
def applyNative : NativeFn → List LiteralValue → Except NyxError LiteralValue
  | .listGen, args => ListLib.gen args
  | .listAdd, args => ListLib.add args
  | .listSize, args => ListLib.size args
  | .listReverse, args => ListLib.reverse args
  | .listGet, args => ListLib.get args
  | .listPop, args => ListLib.pop args
  | .listRemove, args => ListLib.remove args

/-- The method table of the `list` module, mirroring
`List::gen_tree_methods` (note the constructor is stored under the key
`gen`, not `new`). -/
def listModuleMethods : List (String × NativeFn) :=
  [("add", .listAdd), ("gen", .listGen), ("size", .listSize),
   ("reverse", .listReverse), ("get", .listGet), ("pop", .listPop),
   ("remove", .listRemove)]

/-- Mirrors `find_method` in `src/lang/expr.rs`: look the name up on
the class, then up the superclass chain. -/
def find_method (name : String) : LiteralValue → Except NyxError (Option FunctionImpl)
  | .Clazz _ methods superclass =>
    match aget methods name with
    | some fc => .ok (some fc)
    | none =>
      match superclass with
      | some sc => find_method name sc
      | none => .ok none
  | _ => .error (.fatal "Cannot find method on non-class.")

/-- The field update of the `Set` evaluation (`src/lang/expr.rs`,
lines 896-912): linear scan for the first entry with the given name,
overwrite its value in place if found, otherwise push a new entry at
the end. -/
def setFieldVec (fs : List (String × LiteralValue)) (name : String)
    (v : LiteralValue) : List (String × LiteralValue) :=
  match fs with
  | [] => [(name, v)]
  | (k, w) :: rest =>
    if k = name then (k, v) :: rest else (k, w) :: setFieldVec rest name v

/-- Mirrors `NyxInterpreter::build_fc` applied to a
`Stmt::Function { name, params, body }`: the captured `parent_env` is
the interpreter's current environment; the arity is the parameter
count (the `as u8` cast cannot truncate because the parser rejects
more than 255 parameters).  The non-function branch of the source
panics and is modelled as a fatal error at the call sites. -/
def build_fc (envA : Nat) (name : String) (params : List String)
    (body : List Stmt) : FunctionImpl :=
  .mk name params.length envA params body

/-- A native-function value as built by
`NyxInterpreter::build_native_fc`. -/
def nativeValue (name : String) (fn : NativeFn) : LiteralValue :=
  .Callable (.NativeFunction (.mk name fn))

/-- The `Binary` arm of `Expr::evaluate` (`src/lang/expr.rs`, lines
1029-1117), as a function of the two already-evaluated operand values
and the operator token.  The arms appear in the order of the source
and, like a Rust `match`, the first matching arm wins; in particular
the mixed string/number arms precede the `BangEqual` / `EqualEqual`
catch-all arms, so every operator on a mixed string/number pair panics
before the equality arms can apply.  `lex` is the operator token's
lexeme, used only in the final error message. -/
def binaryCase (l : LiteralValue) (op : TokType) (lex : String)
    (r : LiteralValue) : Except NyxError LiteralValue :=
  match l, op, r with
  | .Number x, .Plus, .Number y => .ok (.Number (x + y))
  | .Number x, .Minus, .Number y => .ok (.Number (x - y))
  | .Number x, .Star, .Number y => .ok (.Number (x * y))
  | .Number x, .Slash, .Number y => .ok (.Number (x / y))
  | .Number x, .Greater, .Number y => .ok (.bool (decide (y < x)))
  | .Number x, .GreaterEqual, .Number y => .ok (.bool (decide (y ≤ x)))
  | .Number x, .Less, .Number y => .ok (.bool (decide (x < y)))
  | .Number x, .LessEqual, .Number y => .ok (.bool (decide (x ≤ y)))
  | .StringValue _, opk, .Number _ =>
    .error (.fatal ("(" ++ opk.debugName ++ ") is not defined for string and number."))
  | .Number _, opk, .StringValue _ =>
    .error (.fatal ("(" ++ opk.debugName ++ ") is not defined for string and number."))
  | .StringValue s1, .Plus, .StringValue s2 => .ok (.StringValue (s1 ++ s2))
  | x, .BangEqual, y => .ok (.bool (!litEq x y))
  | x, .EqualEqual, y => .ok (.bool (litEq x y))
  | .StringValue s1, .Greater, .StringValue s2 => .ok (.bool (decide (s2 < s1)))
  | .StringValue s1, .GreaterEqual, .StringValue s2 => .ok (.bool (decide (s2 < s1) || s1 == s2))
  | .StringValue s1, .Less, .StringValue s2 => .ok (.bool (decide (s1 < s2)))
  | .StringValue s1, .LessEqual, .StringValue s2 => .ok (.bool (decide (s1 < s2) || s1 == s2))
  | x, _, y =>
    .error (.fatal ("(" ++ lex ++ ") is not implemented for operands (" ++
      x.convert ++ ") and (" ++ y.convert ++ ")."))

/-- The `write` rendering step `.replace("\\n", "\n")`: replace every
non-overlapping occurrence of the two-character sequence backslash-n
with a real newline, scanning left to right (the semantics of Rust
`str::replace` for this pattern), implemented on the character list so
that it reduces in the kernel. -/
def replaceEscapes : List Char → List Char
  | [] => []
  | [c] => [c]
  | c :: c2 :: rest2 =>
    if c = '\\' && c2 = 'n' then '\n' :: replaceEscapes rest2
    else c :: replaceEscapes (c2 :: rest2)

def writeRender (s : String) : String :=
  ⟨replaceEscapes s.data⟩

/-- The interpreter state carried through statement execution: the
store, the current environment address, the `specials` map and the
three control-flow flags of `NyxInterpreter`. -/
structure InterpState where
  vm : VMState
  env : Nat
  specials : List (String × LiteralValue)
  breaking : Bool
  continuing : Bool
  returning : Bool

/-! ## The evaluator

`evaluate` mirrors `Expr::evaluate` (`src/lang/expr.rs`),
`run_function` mirrors the free function of the same name,
`interpretOne` mirrors one iteration of the statement loop of
`NyxInterpreter::interpret` (`src/lang/interpreter.rs`), `whileLoop`
and `iterItems` are its `while` / `foreach` loops.  `fuel` bounds the
recursion depth: every call into a sub-term, loop iteration or
function body decrements it, while walking along a list of statements,
arguments or list items keeps it, so a statement list needs fuel
proportional to its nesting depth, not to its length. -/

/-- The method-table construction of the class declaration
(`src/lang/interpreter.rs`, lines 113-125): build a `Function` value
for each member with the given environment as `parent_env`; a member
that is not a function statement panics. -/
def buildMethods (envAddr : Nat) (methods : List Stmt) :
    Except NyxError (List (String × FunctionImpl)) :=
  methods.foldl
    (fun (acc : Except NyxError (List (String × FunctionImpl))) m =>
      match acc with
      | .error er => .error er
      | .ok mm =>
        match m with
        | .Function mname mparams mbody =>
          .ok (aput mm mname (build_fc envAddr mname mparams mbody))
        | _ =>
          .error (.fatal "Something that was not a function was in the methods of a class."))
    (.ok [])

/-- The `foreach` item loop of `Stmt::Iteration`
(`src/lang/interpreter.rs`, lines 191-203), abstracted over the body
step (binding the loop variable and interpreting the body, supplied at
the call site).  The flag checks run before the current item is bound,
so a `continue` raised by the previous body skips this item, and
`breaking` / `returning` skip every remaining item (the loop `break`).
-/
def iterItems (runBody : LiteralValue → InterpState → Except NyxError Unit × InterpState)
    (items : List LiteralValue) (s : InterpState) :
    Except NyxError Unit × InterpState :=
  match items with
  | [] => (.ok (), s)
  | item :: rest =>
    if s.breaking then (.ok (), s)
    else if s.continuing then
      iterItems runBody rest { s with continuing := false }
    else if s.returning then (.ok (), s)
    else
      match runBody item s with
      | (.error er, s2) => (.error er, s2)
      | (.ok (), s2) => iterItems runBody rest s2

mutual

def evaluate (fuel : Nat) (e : Expr) (envA : Nat) (vm : VMState) :
    Except NyxError LiteralValue × VMState :=
  match fuel with
  | 0 => (.error .fuel, vm)
  | f + 1 =>
    match e with
    | .AnonFunction _ arguments body =>
      (.ok (.Callable (.Function (.mk "anon_fc" arguments.length envA arguments body))), vm)
    | .Assign id name value =>
      match evaluate f value envA vm with
      | (.error er, vm1) => (.error er, vm1)
      | (.ok new, vm1) =>
        if envConstant vm1 envA name then
          (.error (.fatal "A constant is not allowed to be reassigned."), vm1)
        else
          match envAssign vm1 envA name new id with
          | .error er => (.error er, vm1)
          | .ok (Bool.true, vm2) => (.ok new, vm2)
          | .ok (Bool.false, vm2) =>
            (.error (.fatal "The variable has not been declared."), vm2)
    | .Variable id name =>
      match envGet vm envA name id with
      | .error er => (.error er, vm)
      | .ok (some v) => (.ok v, vm)
      | .ok none =>
        (.error (.fatal "A Variable or Callable or Clazz or Module has not been declared."), vm)
    | .ModuleProperty id module name =>
      match envGet vm envA module id with
      | .error er => (.error er, vm)
      | .ok (some (.Module _ _ constants)) =>
        match constants with
        | some cs =>
          match aget cs name with
          | some v => (.ok v, vm)
          | none =>
            (.error (.fatal "Unknown constant in standard library module."), vm)
        | none =>
          (.error (.fatal "Unknown constant in standard library module."), vm)
      | .ok (some _) =>
        (.error (.fatal "Unknown module in standard library."), vm)
      | .ok none =>
        (.error (.fatal "Unknown module in standard library."), vm)
    | .Call id module call arguments =>
      match evaluate f call envA vm with
      | (.error er, vm1) => (.error er, vm1)
      | (.ok callable, vm1) =>
        match module with
        | some m =>
          match callable with
          | .StringValue s =>
            match envGet vm1 envA m id with
            | .error er => (.error er, vm1)
            | .ok (some (.Module _ methods _)) =>
              match aget methods s with
              | some nfc =>
                -- `try_for_each` propagates argument errors here
                -- (unlike `run_function`).
                match
                  arguments.foldl
                    (fun (acc : Except NyxError (List LiteralValue) × VMState) arg =>
                      match acc with
                      | (.error er, vmA) => (.error er, vmA)
                      | (.ok vs, vmA) =>
                        match evaluate f arg envA vmA with
                        | (.error er, vmB) => (.error er, vmB)
                        | (.ok v, vmB) => (.ok (vs ++ [v]), vmB))
                    ((.ok [], vm1)) with
                | (.error er, vm2) => (.error er, vm2)
                | (.ok vs, vm2) =>
                  match applyNative nfc vs with
                  | .error er => (.error er, vm2)
                  | .ok v => (.ok v, vm2)
              | none =>
                (.error (.fatal "Unknown method of a module of the standard library."), vm1)
            | .ok (some _) =>
              (.error (.fatal "Unknown module in standard library."), vm1)
            | .ok none =>
              (.error (.fatal "Unknown module in standard library."), vm1)
          | _ => (.error (.fatal "Any Object is not callable."), vm1)
        | none =>
          match callable with
          | .Callable (.Function fc) => run_function f fc arguments envA vm1
          | .Callable (.NativeFunction (.mk _ nfc)) =>
            match
              arguments.foldl
                (fun (acc : Except NyxError (List LiteralValue) × VMState) arg =>
                  match acc with
                  | (.error er, vmA) => (.error er, vmA)
                  | (.ok vs, vmA) =>
                    match evaluate f arg envA vmA with
                    | (.error er, vmB) => (.error er, vmB)
                    | (.ok v, vmB) => (.ok (vs ++ [v]), vmB))
                ((.ok [], vm1)) with
            | (.error er, vm2) => (.error er, vm2)
            | (.ok vs, vm2) =>
              match applyNative nfc vs with
              | .error er => (.error er, vm2)
              | .ok v => (.ok v, vm2)
          | .Clazz _ methods _ =>
            let alloc := allocCell vm1
            let inst : LiteralValue := .ClassInstance callable alloc.2
            match aget methods "init" with
            | some initMethod =>
              if initMethod.arity ≠ arguments.length then
                (.error (.fatal "The clazz expected more arguments."), alloc.1)
              else
                let encl := enclose alloc.1 initMethod.parent_env
                let vm4 := envDefine encl.1 encl.2 "this" inst
                match run_function f (initMethod.withParent encl.2) arguments envA vm4 with
                | (.error er, vm5) => (.error er, vm5)
                | (.ok _, vm5) => (.ok inst, vm5)
            | none => (.ok inst, alloc.1)
          | _ => (.error (.fatal "Any Object is not callable."), vm1)
    | .Literal _ value => (.ok value, vm)
    | .Logical _ left operator right =>
      match operator with
      | .Or =>
        match evaluate f left envA vm with
        | (.error er, vm1) => (.error er, vm1)
        | (.ok lhs, vm1) =>
          match lhs.truthy with
          | .error er => (.error er, vm1)
          | .ok t =>
            if litEq t .True then (.ok lhs, vm1)
            else evaluate f right envA vm1
      | .And =>
        match evaluate f left envA vm with
        | (.error er, vm1) => (.error er, vm1)
        | (.ok lhs, vm1) =>
          match lhs.truthy with
          | .error er => (.error er, vm1)
          | .ok t =>
            if litEq t .False then (.ok t, vm1)
            else evaluate f right envA vm1
      | _ => (.error (.fatal "Uknown logical operator."), vm)
    | .Get _ object name =>
      match evaluate f object envA vm with
      | (.error er, vm1) => (.error er, vm1)
      | (.ok objValue, vm1) =>
        match objValue with
        | .ClassInstance cls cellA =>
          match aget (cellOf vm1 cellA) name with
          | some v => (.ok v, vm1)
          | none =>
            match cls with
            | .Clazz _ _ _ =>
              match find_method name cls with
              | .error er => (.error er, vm1)
              | .ok (some method) =>
                let encl := enclose vm1 method.parent_env
                let vm3 := envDefine encl.1 encl.2 "this" objValue
                (.ok (.Callable (.Function (method.withParent encl.2))), vm3)
              | .ok none =>
                (.error (.fatal "The clazz field on an instance was not a clazz."), vm1)
            | _ =>
              (.error (.fatal "The clazz field on an instance was not a clazz."), vm1)
        | _ =>
          (.error (.fatal "The object does not contain this property."), vm1)
    | .Set _ object name value =>
      match evaluate f object envA vm with
      | (.error er, vm1) => (.error er, vm1)
      | (.ok objV, vm1) =>
        match objV with
        | .ClassInstance _ cellA =>
          match evaluate f value envA vm1 with
          | (.error er, vm2) => (.error er, vm2)
          | (.ok v, vm2) =>
            (.ok .Null, setCell vm2 cellA (setFieldVec (cellOf vm2 cellA) name v))
        | _ =>
          (.error (.fatal "The object does not contain this property."), vm1)
    | .This id =>
      match envGet vm envA "this" id with
      | .error er => (.error er, vm)
      | .ok (some v) => (.ok v, vm)
      | .ok none => (.error (.fatal "Could not lookup super."), vm)
    | .Super id method =>
      match envGet vm envA "super" id with
      | .error er => (.error er, vm)
      | .ok none => (.error (.fatal "Could not lookup super."), vm)
      | .ok (some superclass) =>
        match getThisInstance vm envA id with
        | .error er => (.error er, vm)
        | .ok none =>
          (.error (.fatal "called Option unwrap on a None value."), vm)
        | .ok (some inst) =>
          match superclass with
          | .Clazz _ methods _ =>
            match aget methods method with
            | some methodValue =>
              -- Line 969 of expr.rs assigns an enclosed environment to
              -- the `parent_env` of a clone that is immediately
              -- dropped, so it has no effect; line 970 then defines
              -- `this` directly in the captured parent environment of
              -- the stored method, mutating it in place, and the stored
              -- method is returned with that same environment.
              (.ok (.Callable (.Function methodValue)),
               envDefine vm methodValue.parent_env "this" inst)
            | none =>
              (.error (.fatal "No method named on the superclass."), vm)
          | _ =>
            (.error (.fatal "The superclass field on an instance was not a clazz."), vm)
    | .Grouping _ expression => evaluate f expression envA vm
    | .Unary _ operator right =>
      match evaluate f right envA vm with
      | (.error er, vm1) => (.error er, vm1)
      | (.ok v, vm1) =>
        match v, operator with
        | .Number x, .Minus => (.ok (.Number (-x)), vm1)
        | _, .Minus => (.error (.fatal "Minus not implemented."), vm1)
        | anyV, .Bang =>
          match anyV.is_false with
          | .error er => (.error er, vm1)
          | .ok b => (.ok b, vm1)
        | _, t =>
          (.error (.err ("(" ++ t.debugName ++ ") is not a valid operator.")), vm1)
    | .Binary _ left operator opLexeme right =>
      match evaluate f left envA vm with
      | (.error er, vm1) => (.error er, vm1)
      | (.ok l, vm1) =>
        match evaluate f right envA vm1 with
        | (.error er, vm2) => (.error er, vm2)
        | (.ok r, vm2) =>
          match binaryCase l operator opLexeme r with
          | .error er => (.error er, vm2)
          | .ok v => (.ok v, vm2)

def run_function (fuel : Nat) (fc : FunctionImpl) (args : List Expr)
    (evalEnv : Nat) (vm : VMState) :
    Except NyxError LiteralValue × VMState :=
  match fuel with
  | 0 => (.error .fuel, vm)
  | f + 1 =>
    if args.length ≠ fc.arity then
      (.error (.fatal ("Callable (" ++ fc.name ++ ") expected a different number of arguments.")), vm)
    else
      let encl := enclose vm fc.parent_env
      -- the source keeps only `Ok` argument values
      -- (`if let Ok(literal) = arg.evaluate(eval_env)`), silently
      -- dropping `Err` results, while a panic still aborts.
      match
        args.foldl
          (fun (acc : Except NyxError (List LiteralValue) × VMState) arg =>
            match acc with
            | (.error er, vmA) => (.error er, vmA)
            | (.ok vs, vmA) =>
              match evaluate f arg evalEnv vmA with
              | (.ok v, vmB) => (.ok (vs ++ [v]), vmB)
              | (.error (.err _), vmB) => (.ok vs, vmB)
              | (.error er, vmB) => (.error er, vmB))
          ((.ok [], encl.1)) with
      | (.error er, vm2) => (.error er, vm2)
      | (.ok parsedArgs, vm2) =>
        let vm3 := (parsedArgs.zip fc.params).foldl
          (fun acc pv => envDefine acc encl.2 pv.2 pv.1) vm2
        let s0 : InterpState := ⟨vm3, encl.2, [], false, false, false⟩
        match
          fc.body.foldl
            (fun (acc : Except NyxError (Option LiteralValue) × InterpState) b =>
              match acc with
              | (.error er, sA) => (.error er, sA)
              | (.ok (some v), sA) => (.ok (some v), sA)
              | (.ok none, sA) =>
                match interpretOne f b sA with
                | (.error er, sB) => (.error er, sB)
                | (.ok (), sB) =>
                  match aget sB.specials "return" with
                  | some v => (.ok (some v), sB)
                  | none => (.ok none, sB))
            ((.ok none, s0)) with
        | (.error er, sEnd) => (.error er, sEnd.vm)
        | (.ok (some v), sEnd) => (.ok v, sEnd.vm)
        | (.ok none, sEnd) => (.ok .Null, sEnd.vm)

def interpretOne (fuel : Nat) (stmt : Stmt) (s : InterpState) :
    Except NyxError Unit × InterpState :=
  match fuel with
  | 0 => (.error .fuel, s)
  | f + 1 =>
    match stmt with
    | .Expression expr =>
      match evaluate f expr s.env s.vm with
      | (.error er, vm1) => (.error er, { s with vm := vm1 })
      | (.ok _, vm1) => (.ok (), { s with vm := vm1 })
    | .Write exprs =>
      exprs.foldl
        (fun (acc : Except NyxError Unit × InterpState) expr =>
          match acc with
          | (.error er, sA) => (.error er, sA)
          | (.ok (), sA) =>
            match evaluate f expr sA.env sA.vm with
            | (.error er, vm1) => (.error er, { sA with vm := vm1 })
            | (.ok v, vm1) =>
              (.ok (), { sA with vm :=
                { vm1 with output := vm1.output ++ [writeRender v.convert] } }))
        ((.ok (), s))
    | .Let name init =>
      match evaluate f init s.env s.vm with
      | (.error er, vm1) => (.error er, { s with vm := vm1 })
      | (.ok v, vm1) => (.ok (), { s with vm := envDefine vm1 s.env name v })
    | .Const name init =>
      match evaluate f init s.env s.vm with
      | (.error er, vm1) => (.error er, { s with vm := vm1 })
      | (.ok v, vm1) => (.ok (), { s with vm := envDefine vm1 s.env name v })
    | .Block statements =>
      let encl := enclose s.vm s.env
      let old := s.env
      let r := statements.foldl
        (fun (acc : Except NyxError Unit × InterpState) st =>
          match acc with
          | (.error er, sA) => (.error er, sA)
          | (.ok (), sA) => interpretOne f st sA)
        ((.ok (), { s with vm := encl.1, env := encl.2 }))
      (r.1, { r.2 with env := old })
    | .Clazz name methods superclass =>
      let scR : Except NyxError (Option LiteralValue) × VMState :=
        match superclass with
        | some scExpr =>
          match evaluate f scExpr s.env s.vm with
          | (.error er, vm1) => (.error er, vm1)
          | (.ok sc, vm1) =>
            match sc with
            | .Clazz _ _ _ => (.ok (some sc), vm1)
            | _ =>
              (.error (.err ("Superclass must be a class, not (" ++ sc.to_type ++ ").")), vm1)
        | none => (.ok none, s.vm)
      match scR with
      | (.error er, vm1) => (.error er, { s with vm := vm1 })
      | (.ok scv, vm1) =>
        let vm2 := envDefine vm1 s.env name .Null
        let encl := enclose vm2 s.env
        let vm3 :=
          match scv with
          | some sc => envDefine encl.1 encl.2 "super" sc
          | none => encl.1
        match buildMethods encl.2 methods with
        | .error er => (.error er, { s with vm := vm3, env := encl.2 })
        | .ok methodsMap =>
          let asg := assign_global vm3 encl.2 name (.Clazz name methodsMap scv)
          if asg.1 then
            match (frameOf asg.2 encl.2).enclosing with
            | some outer => (.ok (), { s with vm := asg.2, env := outer })
            | none =>
              (.error (.fatal "called Option unwrap on a None value."),
               { s with vm := asg.2, env := encl.2 })
          else
            (.error (.err ("Class definition failed for " ++ name ++ ".")),
             { s with vm := asg.2, env := encl.2 })
    | .If predicate thenB elf els =>
      match evaluate f predicate s.env s.vm with
      | (.error er, vm1) => (.error er, { s with vm := vm1 })
      | (.ok truth, vm1) =>
        match truth.truthy with
        | .error er => (.error er, { s with vm := vm1 })
        | .ok t =>
          if litEq t .True then interpretOne f thenB { s with vm := vm1 }
          else
            match elf with
            | some elfStmt => interpretOne f elfStmt { s with vm := vm1 }
            | none =>
              match els with
              | some elsStmt => interpretOne f elsStmt { s with vm := vm1 }
              | none => (.ok (), { s with vm := vm1 })
    | .Elif predicate thenB =>
      match evaluate f predicate s.env s.vm with
      | (.error er, vm1) => (.error er, { s with vm := vm1 })
      | (.ok truth, vm1) =>
        match truth.truthy with
        | .error er => (.error er, { s with vm := vm1 })
        | .ok t =>
          if litEq t .True then interpretOne f thenB { s with vm := vm1 }
          else (.ok (), { s with vm := vm1 })
    | .While condition body =>
      match evaluate f condition s.env s.vm with
      | (.error er, vm1) => (.error er, { s with vm := vm1 })
      | (.ok flag, vm1) =>
        match whileLoop f condition body flag { s with vm := vm1 } with
        | (.error er, s1) => (.error er, s1)
        | (.ok (), s1) =>
          (.ok (), { s1 with breaking := false, continuing := false, returning := false })
    | .Iteration var value body =>
      match getValue s.vm s.env value with
      | some (.List list) =>
        match iterItems
            (fun item s2 =>
              interpretOne f body { s2 with vm := envDefine s2.vm s2.env var item })
            list s with
        | (.error er, s1) => (.error er, s1)
        | (.ok (), s1) =>
          (.ok (), { s1 with breaking := false, continuing := false, returning := false })
      | some _ =>
        (.error (.fatal "The interation value is not iterable."), s)
      | none => (.ok (), s)
    | .Function name params body =>
      let fcv : LiteralValue := .Callable (.Function (build_fc s.env name params body))
      (.ok (), { s with vm := envDefine s.vm s.env name fcv })
    | .Return value =>
      match value with
      | some vexpr =>
        match evaluate f vexpr s.env s.vm with
        | (.error er, vm1) => (.error er, { s with vm := vm1 })
        | (.ok v, vm1) =>
          let sp := aput s.specials "return" v
          (.ok (), { s with vm := vm1, specials := sp, returning := true })
      | none =>
        let sp := aput s.specials "return" LiteralValue.Null
        (.ok (), { s with specials := sp, returning := true })
    | .Std module fc =>
      match fc with
      | some fns =>
        if module = "list" then
          fns.foldl
            (fun (acc : Except NyxError Unit × InterpState) fn =>
              match acc with
              | (.error er, sA) => (.error er, sA)
              | (.ok (), sA) =>
                if fn = "new" then
                  (.ok (), { sA with vm := envDefine sA.vm sA.env "new_list" (nativeValue "new" .listGen) })
                else if fn = "size" then
                  (.ok (), { sA with vm := envDefine sA.vm sA.env "size" (nativeValue "size" .listSize) })
                else if fn = "add" then
                  (.ok (), { sA with vm := envDefine sA.vm sA.env "add" (nativeValue "add" .listAdd) })
                else if fn = "reverse" then
                  (.ok (), { sA with vm := envDefine sA.vm sA.env "reverse" (nativeValue "reverse" .listReverse) })
                else if fn = "get" then
                  (.ok (), { sA with vm := envDefine sA.vm sA.env "get" (nativeValue "get" .listGet) })
                else if fn = "pop" then
                  (.ok (), { sA with vm := envDefine sA.vm sA.env "pop" (nativeValue "pop" .listPop) })
                else if fn = "remove" then
                  (.ok (), { sA with vm := envDefine sA.vm sA.env "remove" (nativeValue "remove" .listRemove) })
                else
                  (.error (.fatal "Uknown function or constant in the importation of an List."), sA))
            ((.ok (), s))
        else
          -- The os, math, utils and string members wrap host I/O or
          -- float intrinsics; no claim exercises them, and importing
          -- them is out of this model.
          (.error (.fatal "lib import outside the modelled list module."), s)
      | none =>
        if module = "list" then
          let md : LiteralValue := .Module "list" listModuleMethods none
          (.ok (), { s with vm := envDefine s.vm s.env "list" md })
        else
          (.error (.fatal "lib import outside the modelled list module."), s)
    | .Break => (.ok (), { s with breaking := true })
    | .Continue => (.ok (), { s with continuing := true })

def whileLoop (fuel : Nat) (cond : Expr) (body : Stmt) (flag : LiteralValue)
    (s : InterpState) : Except NyxError Unit × InterpState :=
  match fuel with
  | 0 => (.error .fuel, s)
  | f + 1 =>
    match flag.truthy with
    | .error er => (.error er, s)
    | .ok t =>
      if litEq t .True then
        if s.breaking then (.ok (), s)
        else if s.continuing then
          whileLoop f cond body flag { s with continuing := false }
        else if s.returning then (.ok (), s)
        else
          match interpretOne f body s with
          | (.error er, s1) => (.error er, s1)
          | (.ok (), s1) =>
            match evaluate f cond s1.env s1.vm with
            | (.error er, vm2) => (.error er, { s1 with vm := vm2 })
            | (.ok flag2, vm2) => whileLoop f cond body flag2 { s1 with vm := vm2 }
      else (.ok (), s)

end

/-- The statement loop of `NyxInterpreter::interpret`: run the
statements in order, stopping at the first error. -/
def interpret (fuel : Nat) (stmts : List Stmt) (s : InterpState) :
    Except NyxError Unit × InterpState :=
  stmts.foldl
    (fun (acc : Except NyxError Unit × InterpState) st =>
      match acc with
      | (.error er, sA) => (.error er, sA)
      | (.ok (), sA) => interpretOne fuel st sA)
    ((.ok (), s))

/-- The interpreter as set up by `NyxInterpreter::new` followed by
`resolve(locals)`: a single empty root frame, the resolver map, empty
specials, all flags clear. -/
def initState (locals : List (Nat × Nat)) : InterpState :=
  ⟨⟨[⟨[], none⟩], [], locals, []⟩, 0, [], false, false, false⟩

/-! ## The parser's `for` desugaring -/

/-- The construction performed by `NyxParser::for_statement`
(`src/lang/parser.rs`, lines 584-651) after its pieces are parsed: the
optional initializer, optional condition, optional increment and the
body are assembled by the three rebindings of `body` at lines 626-649.
`condId` is the node id the parser draws for the synthesized `True`
literal when the condition is omitted.  The token-by-token parsing of
the pieces themselves (sub-parsers `let_declaration`,
`expression_statement`, `expression`, `statement`) is not re-modelled:
the claim is about the tree this function assembles from them. -/
def forDesugar (initializer : Option Stmt) (condition : Option Expr)
    (increment : Option Expr) (bodyIn : Stmt) (condId : Nat) : Stmt :=
  let body1 : Stmt :=
    match increment with
    | some incr => .Block [bodyIn, .Expression incr]
    | none => bodyIn
  let cond : Expr :=
    match condition with
    | some expr => expr
    | none => .Literal condId .True
  let body2 : Stmt := .While cond body1
  match initializer with
  | some init => .Block [init, body2]
  | none => body2

/-- The environment chain from address `a` reaches the root frame
`r` (the first frame with no enclosing link).  Every state the
interpreter can build satisfies this for every live address, because
`enclose` only ever links a new frame to an existing (older) one. -/
inductive ReachesRoot (vm : VMState) : Nat → Nat → Prop where
  | here (a : Nat) (h : (frameOf vm a).enclosing = none) : ReachesRoot vm a a
  | step (a e r : Nat) (h : (frameOf vm a).enclosing = some e) (hlt : e < a)
      (tail : ReachesRoot vm e r) : ReachesRoot vm a r

/-! ## Concrete evaluation scenarios used by the theorems -/

/-- The `hello` method of a class `A`, as built by class declaration:
its `parent_env` is frame 1, the enclosed class scope. -/
def helloFc : FunctionImpl :=
  .mk "hello" 0 1 [] [.Return (some (.Literal 0 (.StringValue "A")))]

/-- The class `A` of the `clazz B < A` scenario. -/
def clazzA : LiteralValue := .Clazz "A" [("hello", helloFc)] none

/-- An instance of `A` whose field vector is cell 0. -/
def instB : LiteralValue := .ClassInstance clazzA 0

/-- The store at the moment `super.hello` is evaluated inside a method
of `B < A`: frame 0 is the root, frame 1 the class scope of `B`
binding `super` to `A` (and captured as `parent_env` by the methods of
`A` via the shared address), frame 2 the method-binding scope holding
`this`, frame 3 the running method body.  The resolver mapped the
`super` node (id 7) to distance 2, so `this` is read at distance 1. -/
def c3vm : VMState :=
  ⟨[⟨[], none⟩, ⟨[("super", clazzA)], some 0⟩, ⟨[("this", instB)], some 1⟩,
    ⟨[], some 2⟩], [[]], [(7, 2)], []⟩

/-- A one-frame store with an instance field vector holding `a = 1`,
for the `Set` scenario. -/
def c10vm : VMState := ⟨[⟨[], none⟩], [[("a", .Number 1)]], [(5, 0)], []⟩

/-- A root frame holding both the constant `__const__K` and a plain
`K`, with a nested empty frame: the configuration in which constant
protection fails. -/
def c6vm : VMState :=
  ⟨[⟨[("__const__K", .Number 1), ("K", .Number 5)], none⟩, ⟨[], some 0⟩],
   [], [], []⟩

/-- An interpreter state whose root binds `l` to the list `[1, 2]`,
with the resolver mapping the body's variable node (id 0) to distance
0, for the `foreach` scenario. -/
def c5s : InterpState :=
  ⟨⟨[⟨[("l", .List [.Number 1, .Number 2])], none⟩], [], [(0, 0)], []⟩,
   0, [], false, false, false⟩

/-- A one-frame store whose resolver maps the closure body's variable
node (id 4) to distance 1, for the closure-capture scenario. -/
def c7vm : VMState := ⟨[⟨[], none⟩], [], [(4, 1)], []⟩

/-! ## Helper lemmas about the association lists and the frame store -/

theorem aget_aput_self {α : Type} (l : List (String × α)) (k : String) (v : α) :
    aget (aput l k v) k = some v := by
  induction l with
  | nil => simp [aput, ainsert, aget]
  | cons hd tl ih =>
    by_cases h : hd.1 = k
    · simp [aput, ainsert, h, aget]
    · simpa [aput, ainsert, h, aget] using ih

theorem aget_aput_other {α : Type} (l : List (String × α)) (k k2 : String)
    (v : α) (h : k ≠ k2) : aget (aput l k v) k2 = aget l k2 := by
  induction l with
  | nil => simp [aput, ainsert, aget, h]
  | cons hd tl ih =>
    by_cases h2 : hd.1 = k
    · have h3 : ¬hd.1 = k2 := by rw [h2]; exact h
      simp [aput, ainsert, aget, h2, h3, h]
    · by_cases h3 : hd.1 = k2
      · have h4 : ¬k2 = k := fun hh => h hh.symm
        simp [aput, ainsert, aget, h2, h3, h4]
      · simpa [aput, ainsert, aget, h2, h3] using ih

theorem ainsert_fst {α : Type} (l : List (String × α)) (k : String) (v : α) :
    (ainsert l k v).1 = aget l k := by
  induction l with
  | nil => simp [ainsert, aget]
  | cons hd tl ih =>
    by_cases h : hd.1 = k
    · simp [ainsert, h, aget]
    · simpa [ainsert, h, aget] using ih

theorem ainsert_eta {α : Type} (l : List (String × α)) (k : String) (v : α) :
    ainsert l k v = (aget l k, aput l k v) := by
  rw [aput, ← ainsert_fst]

theorem frameOf_setFrame_self (vm : VMState) (a : Nat) (fr : Frame)
    (h : a < vm.frames.length) : frameOf (setFrame vm a fr) a = fr := by
  simp [frameOf, setFrame, List.getD, List.getElem?_set_self, h]

theorem frameOf_setFrame_other (vm : VMState) (a b : Nat) (fr : Frame)
    (h : a ≠ b) : frameOf (setFrame vm a fr) b = frameOf vm b := by
  simp [frameOf, setFrame, List.getD, List.getElem?_set_ne, h]

theorem setFrame_frames_length (vm : VMState) (a : Nat) (fr : Frame) :
    (setFrame vm a fr).frames.length = vm.frames.length := by
  simp [setFrame]

theorem envDefine_locals (vm : VMState) (a : Nat) (n : String)
    (v : LiteralValue) : (envDefine vm a n v).locals = vm.locals := rfl

theorem envDefine_output (vm : VMState) (a : Nat) (n : String)
    (v : LiteralValue) : (envDefine vm a n v).output = vm.output := rfl

theorem envDefine_frames_length (vm : VMState) (a : Nat) (n : String)
    (v : LiteralValue) :
    (envDefine vm a n v).frames.length = vm.frames.length := by
  simp [envDefine, setFrame]

theorem frameOf_envDefine_self (vm : VMState) (a : Nat) (n : String)
    (v : LiteralValue) (h : a < vm.frames.length) :
    frameOf (envDefine vm a n v) a =
      { frameOf vm a with values := aput (frameOf vm a).values n v } := by
  simp [envDefine, frameOf_setFrame_self, h]

theorem frameOf_envDefine_other (vm : VMState) (a b : Nat) (n : String)
    (v : LiteralValue) (h : a ≠ b) :
    frameOf (envDefine vm a n v) b = frameOf vm b := by
  simp [envDefine, frameOf_setFrame_other, h]

theorem getD_append_len {α : Type} (l : List α) (x d : α) :
    (l ++ [x]).getD l.length d = x := by
  simp [List.getD]

theorem getD_append_lt {α : Type} (l l2 : List α) (i : Nat) (d : α)
    (h : i < l.length) : (l ++ l2).getD i d = l.getD i d := by
  simp [List.getD, List.getElem?_append_left, h]

theorem frameOf_append_old (vm : VMState) (fr : Frame) (a : Nat)
    (h : a < vm.frames.length) :
    frameOf { vm with frames := vm.frames ++ [fr] } a = frameOf vm a := by
  simp [frameOf, List.getD, List.getElem?_append_left, h]

theorem frameOf_append_new (vm : VMState) (fr : Frame) :
    frameOf { vm with frames := vm.frames ++ [fr] } vm.frames.length = fr := by
  simp [frameOf, List.getD]

/-! ## Claim theorems -/

/-- C1, counterexample: evaluating `1 == "a"` (and `1 != "a"`) is a
fatal error, not a Boolean: the mixed string/number arm of the
`Binary` match precedes the equality arms, so the cross-variant
equality rule is never reached for a number/string pair. -/
theorem c1_counterexample :
    (evaluate 10 (.Binary 0 (.Literal 1 (.Number 1)) .EqualEqual "=="
        (.Literal 2 (.StringValue "a"))) 0 (initState []).vm).1 =
      .error (.fatal "(EqualEqual) is not defined for string and number.") ∧
    (evaluate 10 (.Binary 0 (.Literal 1 (.Number 1)) .BangEqual "!="
        (.Literal 2 (.StringValue "a"))) 0 (initState []).vm).1 =
      .error (.fatal "(BangEqual) is not defined for string and number.") :=
  ⟨rfl, rfl⟩

/-- C1, amended: for a binary expression whose evaluated operands are
one Number and one String (in either order), EVERY operator — the
equality operators `==` and `!=` included — is a fatal error; the
cross-variant equality rule of `PartialEq` is unreachable for this
operand pair. -/
theorem c1_mixed_operands_always_fatal (op : TokType) (lex : String)
    (x : ℚ) (s : String) :
    (∃ m, binaryCase (.Number x) op lex (.StringValue s) = .error (.fatal m)) ∧
    (∃ m, binaryCase (.StringValue s) op lex (.Number x) = .error (.fatal m)) := by
  cases op <;> exact ⟨⟨_, rfl⟩, ⟨_, rfl⟩⟩

/-- C2: in an `if` statement carrying both an `elif` and an `else`
branch, when both predicates are falsy the `else` branch does NOT run
(nothing is printed), because the interpreter enters the unconditional
`else if let Some(elf_stmt) = elf` arm and the `els` arm becomes
unreachable; without the `elif` the same program does run the `else`
branch.  The claim (and the spec) say the `else` branch executes. -/
theorem c2_else_skipped_when_elif_present :
    (interpret 10 [.If (.Literal 0 .False) (.Write [.Literal 1 (.Number 1)])
        (some (.Elif (.Literal 2 .False) (.Write [.Literal 3 (.Number 2)])))
        (some (.Write [.Literal 4 (.Number 3)]))] (initState [])).1 = .ok () ∧
    (interpret 10 [.If (.Literal 0 .False) (.Write [.Literal 1 (.Number 1)])
        (some (.Elif (.Literal 2 .False) (.Write [.Literal 3 (.Number 2)])))
        (some (.Write [.Literal 4 (.Number 3)]))] (initState [])).2.vm.output = [] ∧
    (interpret 10 [.If (.Literal 0 .False) (.Write [.Literal 1 (.Number 1)])
        none
        (some (.Write [.Literal 4 (.Number 3)]))] (initState [])).2.vm.output = ["3"] :=
  ⟨rfl, rfl, rfl⟩

/-- C8: the `for` statement desugars at parse time to exactly
`{ init; while (cond) { body; incr; } }`, with the condition
defaulting to the `True` literal when omitted.  Behavioural
equivalence with the desugared form is immediate because the parse
result IS that statement tree. -/
theorem c8_for_desugars_to_while
    (i : Stmt) (c : Expr) (n : Expr) (b : Stmt) (cid : Nat) :
    forDesugar (some i) (some c) (some n) b cid =
      .Block [i, .While c (.Block [b, .Expression n])] ∧
    forDesugar (some i) none (some n) b cid =
      .Block [i, .While (.Literal cid .True) (.Block [b, .Expression n])] :=
  ⟨rfl, rfl⟩

/-- C3: evaluating `super.hello` in the method scenario `c3vm`
returns the superclass method UNCHANGED — its `parent_env` is still
the captured frame 1, no fresh frame was allocated — and defines
`this` directly into that captured frame, mutating it in place.  (The
enclosed clone built by line 969 of `expr.rs` is assigned to a
temporary that is immediately dropped.)  The claim says a fresh
enclosing environment is created and the captured environment is left
unmodified. -/
theorem c3_super_mutates_captured_env :
    evaluate 10 (.Super 7 "hello") 3 c3vm =
      (.ok (.Callable (.Function helloFc)), envDefine c3vm 1 "this" instB) ∧
    helloFc.parent_env = 1 ∧
    (envDefine c3vm 1 "this" instB).frames.length = c3vm.frames.length ∧
    aget (frameOf (envDefine c3vm 1 "this" instB) 1).values "this" = some instB ∧
    aget (frameOf c3vm 1).values "this" = none :=
  ⟨rfl, rfl, rfl, rfl, rfl⟩

/-- C4, counterexample: a class declared inside a block is NOT bound
in the environment where the declaration executed — the final
assignment walks to the root, fails to find the name there, leaves the
block-scope binding at `Null` (and deposits the class at the root),
and evaluation aborts with an error instead of succeeding. -/
theorem c4_counterexample :
    (interpret 10 [.Block [.Clazz "C" [] none]] (initState [])).1 =
      .error (.err "Class definition failed for C.") ∧
    aget (frameOf (interpret 10 [.Block [.Clazz "C" [] none]] (initState [])).2.vm 1).values "C" =
      some .Null ∧
    aget (frameOf (interpret 10 [.Block [.Clazz "C" [] none]] (initState [])).2.vm 0).values "C" =
      some (.Clazz "C" [] none) :=
  ⟨rfl, rfl, rfl⟩

/-- C5, counterexample: `foreach x in l` where `l` is not bound in the
current environment is NOT a fatal error — the statement silently does
nothing and leaves the state exactly unchanged (the `if let Some(v)`
around the iteration has no else branch). -/
theorem c5_counterexample :
    interpret 10 [.Iteration "x" "l" (.Write [.Literal 0 (.Number 1)])]
        (initState []) = (.ok (), initState []) :=
  rfl

/-- C6, counterexample: after `const K = 1;` (stored as `__const__K`)
and `let K = 5;` at the root, the assignment `K = 2;` inside a block
SUCCEEDS: the block frame does not contain the constant key, the
resolver recorded no distance, and the root insert finds the plain
`K`, so no error is raised — while a read of `K` still sees the
constant value 1.  The claim says every such assignment is a fatal
error. -/
theorem c6_counterexample :
    (interpret 10 [.Const "__const__K" (.Literal 0 (.Number 1)),
        .Let "K" (.Literal 1 (.Number 5)),
        .Block [.Expression (.Assign 2 "K" (.Literal 3 (.Number 2)))]]
      (initState [])).1 = .ok () ∧
    getValue (interpret 10 [.Const "__const__K" (.Literal 0 (.Number 1)),
        .Let "K" (.Literal 1 (.Number 5)),
        .Block [.Expression (.Assign 2 "K" (.Literal 3 (.Number 2)))]]
      (initState [])).2.vm 0 "K" = some (.Number 2) ∧
    internalGlobal (interpret 10 [.Const "__const__K" (.Literal 0 (.Number 1)),
        .Let "K" (.Literal 1 (.Number 5)),
        .Block [.Expression (.Assign 2 "K" (.Literal 3 (.Number 2)))]]
      (initState [])).2.vm 0 "K" = some (.Number 1) :=
  ⟨rfl, rfl, rfl⟩

/-- C9, counterexample: `list::get([10, 20], 2.5)` succeeds with
`[20, 2.5]` even though 2.5 is out of the 1..size range (size is 2),
because the index is truncated to 2 before the bounds check; the claim
requires a fatal error for every out-of-range index. -/
theorem c9_counterexample :
    ListLib.get [.List [.Number 10, .Number 20], .Number (Rat.divInt 5 2)] =
      .ok (.List [.Number 20, .Number (Rat.divInt 5 2)]) ∧
    ¬(Rat.divInt 5 2 ≤ 2) := by
  constructor
  · rfl
  · rw [Rat.divInt_eq_div]; norm_num

/-- C9, amended: `list::get(l, i)` bounds-checks the TRUNCATION of
`i`, not `i` itself.  It errors when `i = 0`; when the saturating
truncation of `i` is 0 (every `i < 1`, negative `i` included); and
when the truncation exceeds the size.  Whenever the truncation is
`t + 1` and `l` has an element at position `t + 1` counting from 1, it
returns `[that element, i]` — for every such `i`, non-integer values
beyond `size(l)` included. -/
theorem c9_get_truncates_the_index (xs : List LiteralValue) (i : ℚ) :
    (i = 0 →
      ListLib.get [.List xs, .Number i] =
        .error (.fatal "(list::get()) Index must be greater than 0.")) ∧
    (i ≠ 0 → ratAsUsize i = 0 →
      ListLib.get [.List xs, .Number i] =
        .error (.fatal "(list::get()) Index must be less than the size of the list.")) ∧
    (∀ t, ratAsUsize i = t + 1 →
      (∀ v, xs.get? t = some v →
        ListLib.get [.List xs, .Number i] = .ok (.List [v, .Number i])) ∧
      (xs.get? t = none →
        ListLib.get [.List xs, .Number i] =
          .error (.fatal "(list::get()) Index must be less than the size of the list."))) := by
  refine ⟨fun h0 => ?_, fun hne h0 => ?_, fun t ht => ⟨fun v hv => ?_, fun hv => ?_⟩⟩
  · simp [ListLib.get, h0]
  · simp [ListLib.get, hne, h0]
  · have hne : i ≠ 0 := by
      intro h0; rw [h0] at ht; simp [ratAsUsize] at ht
    rw [List.get?_eq_getElem?] at hv
    simp [ListLib.get, hne, ht, hv]
  · have hne : i ≠ 0 := by
      intro h0; rw [h0] at ht; simp [ratAsUsize] at ht
    rw [List.get?_eq_getElem?] at hv
    simp [ListLib.get, hne, ht, hv]

/-- C9, witness: `get([10, 20], 5/2)` truncates the index to 2 and
returns `[20, 5/2]`. -/
theorem c9_witness :
    ratAsUsize (Rat.divInt 5 2) = 1 + 1 ∧
    [LiteralValue.Number 10, LiteralValue.Number 20].get? 1 =
      some (.Number 20) ∧
    ListLib.get [.List [.Number 10, .Number 20], .Number (Rat.divInt 5 2)] =
      .ok (.List [.Number 20, .Number (Rat.divInt 5 2)]) :=
  ⟨by decide, rfl,
   ((c9_get_truncates_the_index [.Number 10, .Number 20] (Rat.divInt 5 2)).2.2
      1 (by decide)).1 (.Number 20) rfl⟩

/-- C10: a `Set` expression on a ClassInstance updates the instance's
field vector in place — the first entry of that name is overwritten,
otherwise a new entry is appended at the end — and the `Set`
expression itself evaluates to Null; a plain variable assignment, by
contrast, evaluates to the assigned value. -/
theorem c10_set_in_place_null_vs_assign_value :
    (∀ (f : Nat) (vm : VMState) (envA : Nat) (cls : LiteralValue)
        (cellA : Nat) (name : String) (v : LiteralValue) (i1 i2 i3 : Nat),
      evaluate (f + 2) (.Set i1 (.Literal i2 (.ClassInstance cls cellA)) name
          (.Literal i3 v)) envA vm =
        (.ok .Null, setCell vm cellA (setFieldVec (cellOf vm cellA) name v))) ∧
    (∀ (fs : List (String × LiteralValue)) (name : String) (v : LiteralValue),
      aget fs name = none → setFieldVec fs name v = fs ++ [(name, v)]) ∧
    (∀ (pre post : List (String × LiteralValue)) (name : String)
        (w v : LiteralValue), (∀ p ∈ pre, p.1 ≠ name) →
      setFieldVec (pre ++ (name, w) :: post) name v = pre ++ (name, v) :: post) ∧
    (∀ (f : Nat) (vm : VMState) (envA : Nat) (name : String)
        (v : LiteralValue) (id i2 : Nat),
      envConstant vm envA name = false → nget vm.locals id = some 0 →
      evaluate (f + 2) (.Assign id name (.Literal i2 v)) envA vm =
        (.ok v, envDefine vm envA name v)) := by
  refine ⟨fun f vm envA cls cellA name v i1 i2 i3 => rfl,
          fun fs name v h => ?_, fun pre post name w v h => ?_,
          fun f vm envA name v id i2 h1 h2 => ?_⟩
  · induction fs with
    | nil => simp [setFieldVec]
    | cons hd tl ih =>
      by_cases h2 : hd.1 = name
      · simp [aget, h2] at h
      · simp [aget, h2] at h
        simp [setFieldVec, h2, ih h]
  · induction pre with
    | nil => simp [setFieldVec]
    | cons hd tl ih =>
      have hh : hd.1 ≠ name := h hd (by simp)
      simp [setFieldVec, hh]
      exact ih (fun p hp => h p (by simp [hp]))
  · simp [evaluate, h1, envAssign, h2, assignAt, Except.map]

/-! ## Chain-walk lemmas: global reads and assignments hit the root -/

theorem enclosing_setFrame (vm : VMState) (x b : Nat) (fr : Frame)
    (h : fr.enclosing = (frameOf vm x).enclosing) :
    (frameOf (setFrame vm x fr) b).enclosing = (frameOf vm b).enclosing := by
  by_cases hb : x = b
  · subst hb
    by_cases hx : x < vm.frames.length
    · rw [frameOf_setFrame_self vm x fr hx, h]
    · have hset : vm.frames.set x fr = vm.frames :=
        List.set_eq_of_length_le (by omega)
      simp [setFrame, frameOf, hset]
  · rw [frameOf_setFrame_other vm x b fr hb]

theorem reaches_setFrame (vm : VMState) (x : Nat) (fr : Frame)
    (h : fr.enclosing = (frameOf vm x).enclosing) {a r : Nat}
    (hr : ReachesRoot vm a r) : ReachesRoot (setFrame vm x fr) a r := by
  induction hr with
  | here b hb =>
    exact .here b (by rw [enclosing_setFrame vm x b fr h]; exact hb)
  | step b e r hb hlt tail ih =>
    exact .step b e r (by rw [enclosing_setFrame vm x b fr h]; exact hb) hlt ih

theorem reaches_envDefine (vm : VMState) (x : Nat) (n : String)
    (v : LiteralValue) {a r : Nat} (hr : ReachesRoot vm a r) :
    ReachesRoot (envDefine vm x n v) a r :=
  reaches_setFrame vm x
    { frameOf vm x with values := aput (frameOf vm x).values n v } rfl hr

theorem reaches_append (vm : VMState) (fr : Frame) {a r : Nat}
    (hr : ReachesRoot vm a r) (hlen : a < vm.frames.length) :
    ReachesRoot { vm with frames := vm.frames ++ [fr] } a r := by
  induction hr with
  | here b hb =>
    exact .here b (by rw [frameOf_append_old vm fr b hlen]; exact hb)
  | step b e r hb hlt tail ih =>
    exact .step b e r (by rw [frameOf_append_old vm fr b hlen]; exact hb) hlt
      (ih (by omega))

/-- A root is where the chain ends: its own enclosing link is absent. -/
theorem reaches_root_enclosing {vm : VMState} {a r : Nat}
    (hr : ReachesRoot vm a r) : (frameOf vm r).enclosing = none := by
  induction hr with
  | here b hb => exact hb
  | step b e r hb hlt tail ih => exact ih

/-- Along a chain the addresses never grow, so the root is the least
address of its chain. -/
theorem reaches_root_le {vm : VMState} {a r : Nat}
    (hr : ReachesRoot vm a r) : r ≤ a := by
  induction hr with
  | here b hb => exact Nat.le_refl b
  | step b e r hb hlt tail ih => omega

theorem internalGlobalAux_eq (vm : VMState) (name : String) {a r : Nat}
    (h : ReachesRoot vm a r) :
    ∀ gas, a < gas →
      internalGlobalAux vm name gas a =
        (if (aget (frameOf vm r).values ("__const__" ++ name)).isNone
         then aget (frameOf vm r).values name
         else aget (frameOf vm r).values ("__const__" ++ name)) := by
  induction h with
  | here b hb =>
    intro gas hgas
    cases gas with
    | zero => omega
    | succ g => simp [internalGlobalAux, hb]
  | step b e r hb hlt tail ih =>
    intro gas hgas
    cases gas with
    | zero => omega
    | succ g =>
      simp only [internalGlobalAux, hb]
      exact ih g (by omega)

theorem internalGlobal_eq (vm : VMState) (name : String) {a r : Nat}
    (h : ReachesRoot vm a r) :
    internalGlobal vm a name =
      (if (aget (frameOf vm r).values ("__const__" ++ name)).isNone
       then aget (frameOf vm r).values name
       else aget (frameOf vm r).values ("__const__" ++ name)) :=
  internalGlobalAux_eq vm name h (a + 1) (Nat.lt_succ_self a)

theorem assignGlobalWalkAux_eq (vm : VMState) (name : String)
    (v : LiteralValue) {a r : Nat} (h : ReachesRoot vm a r) :
    ∀ gas, a < gas →
      assignGlobalWalkAux vm name v gas a =
        ((aget (frameOf vm r).values name).isSome,
         setFrame vm r
           { frameOf vm r with values := aput (frameOf vm r).values name v }) := by
  induction h with
  | here b hb =>
    intro gas hgas
    cases gas with
    | zero => omega
    | succ g => simp [assignGlobalWalkAux, hb, ainsert_eta]
  | step b e r hb hlt tail ih =>
    intro gas hgas
    cases gas with
    | zero => omega
    | succ g =>
      simp only [assignGlobalWalkAux, hb]
      exact ih g (by omega)

theorem assignGlobalWalk_eq (vm : VMState) (name : String) (v : LiteralValue)
    {a r : Nat} (h : ReachesRoot vm a r) :
    assignGlobalWalk vm a name v =
      ((aget (frameOf vm r).values name).isSome,
       setFrame vm r
         { frameOf vm r with values := aput (frameOf vm r).values name v }) :=
  assignGlobalWalkAux_eq vm name v h (a + 1) (Nat.lt_succ_self a)

/-- One evaluation step of a superclass-less class declaration, for
any environment chain: the name is defined as `Null` in the declaring
frame, a class scope is enclosed, and the final assignment walks to
the ROOT of the chain — succeeding exactly when the root already holds
the name (which the `Null` define arranged only when the declaring
frame IS the root). -/
theorem clazz_none_step (f : Nat) (s : InterpState) (name : String)
    (ms : List Stmt) (mm : List (String × FunctionImpl)) {r : Nat}
    (hrr : ReachesRoot s.vm s.env r)
    (hlen : s.env < s.vm.frames.length)
    (hbm : buildMethods s.vm.frames.length ms = .ok mm) :
    interpretOne (f + 1) (.Clazz name ms none) s =
      (let vd := envDefine s.vm s.env name .Null
       let vm3 : VMState := { vd with frames := vd.frames ++ [⟨[], some s.env⟩] }
       let final := setFrame vm3 r
         { frameOf vm3 r with
           values := aput (frameOf vm3 r).values name (.Clazz name mm none) }
       if (aget (frameOf vm3 r).values name).isSome then
         (.ok (), { s with vm := final, env := s.env })
       else
         (.error (.err ("Class definition failed for " ++ name ++ ".")),
          { s with vm := final, env := s.vm.frames.length })) := by
  have hlv2 : (envDefine s.vm s.env name .Null).frames.length =
      s.vm.frames.length := by
    simp [envDefine, setFrame]
  have hr2 : ReachesRoot (envDefine s.vm s.env name .Null) s.env r :=
    reaches_envDefine _ _ _ _ hrr
  have hlen2 : s.env < (envDefine s.vm s.env name .Null).frames.length := by
    omega
  have hr3 : ReachesRoot
      { envDefine s.vm s.env name .Null with
        frames := (envDefine s.vm s.env name .Null).frames ++ [⟨[], some s.env⟩] }
      s.env r := reaches_append _ _ hr2 hlen2
  have hnew := frameOf_append_new (envDefine s.vm s.env name .Null)
    (⟨[], some s.env⟩ : Frame)
  have hr4 : ReachesRoot
      { envDefine s.vm s.env name .Null with
        frames := (envDefine s.vm s.env name .Null).frames ++ [⟨[], some s.env⟩] }
      (envDefine s.vm s.env name .Null).frames.length r :=
    .step _ _ _ (by rw [hnew]) hlen2 hr3
  have hwalk := assignGlobalWalk_eq _ name (.Clazz name mm none) hr4
  have hrle := reaches_root_le hrr
  rw [hlv2] at hnew hwalk
  have hrne : r ≠ s.vm.frames.length := by omega
  simp only [interpretOne, enclose, hlv2, hbm, assign_global, hwalk]
  by_cases hs : (aget (frameOf
      { envDefine s.vm s.env name .Null with
        frames := (envDefine s.vm s.env name .Null).frames ++ [⟨[], some s.env⟩] }
      r).values name).isSome
  · simp only [hs, if_true]
    rw [frameOf_setFrame_other _ _ _ _ hrne, hnew]
  · simp only [hs, Bool.false_eq_true, if_false]

/-- C4, amended: a class declaration defines the name as Null in the
declaring environment and performs the final assignment at the ROOT of
the environment chain.  (a) Executed at top level — the declaring
frame is the root — it succeeds, the declaring (root) binding holds
the Class value, and the class scope is popped.  (b) Executed in a
nested environment whose root does not bind the name, it is a fatal
error and the declaring frame's binding remains Null.  (c) Executed in
a nested environment whose root does bind the name, it succeeds, but
the Class value lands in the ROOT binding while the declaring frame's
binding remains Null.  (Established for declarations without a
superclass clause; a superclass only adds a `super` binding inside the
class scope before the same root-targeted assignment.) -/
theorem c4_clazz_assignment_targets_root :
    (∀ (f : Nat) (s : InterpState) (name : String) (ms : List Stmt)
        (mm : List (String × FunctionImpl)),
      (frameOf s.vm s.env).enclosing = none →
      s.env < s.vm.frames.length →
      buildMethods s.vm.frames.length ms = .ok mm →
      (interpretOne (f + 1) (.Clazz name ms none) s).1 = .ok () ∧
      getValue (interpretOne (f + 1) (.Clazz name ms none) s).2.vm s.env name =
        some (.Clazz name mm none) ∧
      (interpretOne (f + 1) (.Clazz name ms none) s).2.env = s.env) ∧
    (∀ (f : Nat) (s : InterpState) (name : String) (ms : List Stmt)
        (mm : List (String × FunctionImpl)) (p r : Nat),
      (frameOf s.vm s.env).enclosing = some p →
      ReachesRoot s.vm s.env r →
      s.env < s.vm.frames.length →
      buildMethods s.vm.frames.length ms = .ok mm →
      aget (frameOf s.vm r).values name = none →
      (interpretOne (f + 1) (.Clazz name ms none) s).1 =
        .error (.err ("Class definition failed for " ++ name ++ ".")) ∧
      getValue (interpretOne (f + 1) (.Clazz name ms none) s).2.vm s.env name =
        some .Null) ∧
    (∀ (f : Nat) (s : InterpState) (name : String) (ms : List Stmt)
        (mm : List (String × FunctionImpl)) (p r : Nat) (w : LiteralValue),
      (frameOf s.vm s.env).enclosing = some p →
      ReachesRoot s.vm s.env r →
      s.env < s.vm.frames.length →
      buildMethods s.vm.frames.length ms = .ok mm →
      aget (frameOf s.vm r).values name = some w →
      (interpretOne (f + 1) (.Clazz name ms none) s).1 = .ok () ∧
      aget (frameOf (interpretOne (f + 1) (.Clazz name ms none) s).2.vm r).values
        name = some (.Clazz name mm none) ∧
      getValue (interpretOne (f + 1) (.Clazz name ms none) s).2.vm s.env name =
        some .Null) := by
  refine ⟨fun f s name ms mm henc hlen hbm => ?_,
          fun f s name ms mm p r henc hrr hlen hbm hroot => ?_,
          fun f s name ms mm p r w henc hrr hlen hbm hroot => ?_⟩
  · rw [clazz_none_step f s name ms mm (.here s.env henc) hlen hbm]
    have hlv2 : (envDefine s.vm s.env name .Null).frames.length =
        s.vm.frames.length := by simp [envDefine, setFrame]
    have hlen2 : s.env < (envDefine s.vm s.env name .Null).frames.length := by
      omega
    have hframe3 : frameOf
        { envDefine s.vm s.env name .Null with
          frames := (envDefine s.vm s.env name .Null).frames ++ [⟨[], some s.env⟩] }
        s.env =
        { frameOf s.vm s.env with
          values := aput (frameOf s.vm s.env).values name .Null } := by
      rw [frameOf_append_old _ _ _ hlen2]
      exact frameOf_envDefine_self s.vm s.env name .Null hlen
    have hs : (aget (frameOf
        { envDefine s.vm s.env name .Null with
          frames := (envDefine s.vm s.env name .Null).frames ++ [⟨[], some s.env⟩] }
        s.env).values name).isSome = true := by
      rw [hframe3]; simp [aget_aput_self]
    have hlen3 : s.env <
        ({ envDefine s.vm s.env name .Null with
           frames := (envDefine s.vm s.env name .Null).frames ++ [⟨[], some s.env⟩] }
          : VMState).frames.length := by
      simp only [List.length_append, List.length_cons, List.length_nil]
      omega
    simp only [hs, if_true, getValue, frameOf_setFrame_self _ _ _ hlen3,
      aget_aput_self]
    exact ⟨trivial, trivial, trivial⟩
  · have hrne : r ≠ s.env := by
      intro hEq
      have h2 := reaches_root_enclosing hrr
      rw [hEq] at h2; rw [h2] at henc; exact Option.noConfusion henc
    have hrle := reaches_root_le hrr
    rw [clazz_none_step f s name ms mm hrr hlen hbm]
    have hlv2 : (envDefine s.vm s.env name .Null).frames.length =
        s.vm.frames.length := by simp [envDefine, setFrame]
    have hlen2 : s.env < (envDefine s.vm s.env name .Null).frames.length := by
      omega
    have hlenr : r < (envDefine s.vm s.env name .Null).frames.length := by
      omega
    have hframe3 : frameOf
        { envDefine s.vm s.env name .Null with
          frames := (envDefine s.vm s.env name .Null).frames ++ [⟨[], some s.env⟩] }
        r = frameOf s.vm r := by
      rw [frameOf_append_old _ _ _ hlenr]
      exact frameOf_envDefine_other s.vm s.env r name .Null (fun h => hrne h.symm)
    have hs : (aget (frameOf
        { envDefine s.vm s.env name .Null with
          frames := (envDefine s.vm s.env name .Null).frames ++ [⟨[], some s.env⟩] }
        r).values name).isSome = false := by
      rw [hframe3, hroot]; rfl
    have hframeE : frameOf
        { envDefine s.vm s.env name .Null with
          frames := (envDefine s.vm s.env name .Null).frames ++ [⟨[], some s.env⟩] }
        s.env =
        { frameOf s.vm s.env with
          values := aput (frameOf s.vm s.env).values name .Null } := by
      rw [frameOf_append_old _ _ _ hlen2]
      exact frameOf_envDefine_self s.vm s.env name .Null hlen
    simp only [hs, Bool.false_eq_true, if_false, getValue,
      frameOf_setFrame_other _ _ _ _ hrne, hframeE, aget_aput_self]
    exact ⟨trivial, trivial⟩
  · have hrne : r ≠ s.env := by
      intro hEq
      have h2 := reaches_root_enclosing hrr
      rw [hEq] at h2; rw [h2] at henc; exact Option.noConfusion henc
    have hrle := reaches_root_le hrr
    rw [clazz_none_step f s name ms mm hrr hlen hbm]
    have hlv2 : (envDefine s.vm s.env name .Null).frames.length =
        s.vm.frames.length := by simp [envDefine, setFrame]
    have hlen2 : s.env < (envDefine s.vm s.env name .Null).frames.length := by
      omega
    have hlenr : r < (envDefine s.vm s.env name .Null).frames.length := by
      omega
    have hframe3 : frameOf
        { envDefine s.vm s.env name .Null with
          frames := (envDefine s.vm s.env name .Null).frames ++ [⟨[], some s.env⟩] }
        r = frameOf s.vm r := by
      rw [frameOf_append_old _ _ _ hlenr]
      exact frameOf_envDefine_other s.vm s.env r name .Null (fun h => hrne h.symm)
    have hs : (aget (frameOf
        { envDefine s.vm s.env name .Null with
          frames := (envDefine s.vm s.env name .Null).frames ++ [⟨[], some s.env⟩] }
        r).values name).isSome = true := by
      rw [hframe3, hroot]; rfl
    have hlen3 : r <
        ({ envDefine s.vm s.env name .Null with
           frames := (envDefine s.vm s.env name .Null).frames ++ [⟨[], some s.env⟩] }
          : VMState).frames.length := by
      simp only [List.length_append, List.length_cons, List.length_nil]
      omega
    have hframeE : frameOf
        { envDefine s.vm s.env name .Null with
          frames := (envDefine s.vm s.env name .Null).frames ++ [⟨[], some s.env⟩] }
        s.env =
        { frameOf s.vm s.env with
          values := aput (frameOf s.vm s.env).values name .Null } := by
      rw [frameOf_append_old _ _ _ hlen2]
      exact frameOf_envDefine_self s.vm s.env name .Null hlen
    simp only [hs, if_true, getValue, frameOf_setFrame_self _ _ _ hlen3,
      frameOf_setFrame_other _ _ _ _ (fun h => hrne h),
      hframeE, aget_aput_self]
    exact ⟨trivial, trivial, trivial⟩

/-- C4, witness: a top-level class declaration on the initial state
succeeds and binds the class at the root. -/
theorem c4_witness :
    (frameOf (initState []).vm 0).enclosing = none ∧
    0 < (initState []).vm.frames.length ∧
    buildMethods 1 ([] : List Stmt) = .ok [] ∧
    (interpretOne 1 (.Clazz "C" [] none) (initState [])).1 = .ok () ∧
    getValue (interpretOne 1 (.Clazz "C" [] none) (initState [])).2.vm 0 "C" =
      some (.Clazz "C" [] none) :=
  ⟨rfl, by decide, rfl,
   (c4_clazz_assignment_targets_root.1 0 (initState []) "C" [] [] rfl
      (by decide) rfl).1,
   (c4_clazz_assignment_targets_root.1 0 (initState []) "C" [] [] rfl
      (by decide) rfl).2.1⟩

/-- C6, amended: an assignment to a name declared `const` is a fatal
error when the assigning frame itself holds the constant key, and also
when the assignment resolves globally and the root has no plain
binding of the name (this covers every scope that sees only the
constant); but when a plain variable of the same name is ALSO bound at
the root, a global-resolving assignment from a frame without the
constant key silently succeeds, overwriting the plain root variable,
while reads keep returning the constant. -/
theorem c6_const_reassignment_rules :
    (∀ (f : Nat) (vm : VMState) (envA : Nat) (name : String)
        (v : LiteralValue) (id i2 : Nat),
      envConstant vm envA name = true →
      evaluate (f + 2) (.Assign id name (.Literal i2 v)) envA vm =
        (.error (.fatal "A constant is not allowed to be reassigned."), vm)) ∧
    (∀ (f : Nat) (vm : VMState) (envA : Nat) (name : String)
        (v : LiteralValue) (id i2 r : Nat),
      envConstant vm envA name = false →
      nget vm.locals id = none →
      ReachesRoot vm envA r →
      aget (frameOf vm r).values name = none →
      (evaluate (f + 2) (.Assign id name (.Literal i2 v)) envA vm).1 =
        .error (.fatal "The variable has not been declared.")) ∧
    (∀ (f : Nat) (vm : VMState) (envA : Nat) (name : String)
        (v : LiteralValue) (id i2 r : Nat) (w c : LiteralValue),
      envConstant vm envA name = false →
      nget vm.locals id = none →
      ReachesRoot vm envA r →
      aget (frameOf vm r).values name = some w →
      aget (frameOf vm r).values ("__const__" ++ name) = some c →
      evaluate (f + 2) (.Assign id name (.Literal i2 v)) envA vm =
        (.ok v, setFrame vm r
          { frameOf vm r with values := aput (frameOf vm r).values name v }) ∧
      internalGlobal (setFrame vm r
          { frameOf vm r with values := aput (frameOf vm r).values name v })
        envA name = some c) := by
  refine ⟨fun f vm envA name v id i2 h1 => ?_,
          fun f vm envA name v id i2 r h1 h2 hrr hroot => ?_,
          fun f vm envA name v id i2 r w c h1 h2 hrr hroot hconst => ?_⟩
  · simp [evaluate, h1]
  · simp [evaluate, h1, envAssign, h2, assignGlobalWalk_eq _ _ _ hrr, hroot]
  · have hne2 : ("__const__" ++ name) ≠ name := by
      intro h
      have hl := congrArg String.length h
      rw [String.length_append] at hl
      have h9 : "__const__".length = 9 := rfl
      rw [h9] at hl
      omega
    constructor
    · simp [evaluate, h1, envAssign, h2, assignGlobalWalk_eq _ _ _ hrr, hroot]
    · have hrlen : r < vm.frames.length := by
        by_contra hcon
        have hdef : frameOf vm r = ⟨[], none⟩ :=
          List.getD_eq_default _ _ (by omega)
        rw [hdef] at hroot
        exact Option.noConfusion hroot
      have hrr2 : ReachesRoot (setFrame vm r
          { frameOf vm r with values := aput (frameOf vm r).values name v })
          envA r := reaches_setFrame vm r
            { frameOf vm r with values := aput (frameOf vm r).values name v }
            rfl hrr
      rw [internalGlobal_eq _ _ hrr2,
        frameOf_setFrame_self _ _ _ hrlen]
      simp only [aget_aput_other _ name ("__const__" ++ name) v
        (fun h => hne2 h.symm), hconst]
      rfl

/-- C6, witness: in the two-frame `c6vm` configuration (root holds
both `__const__K` and plain `K`), assigning `K = 2` from the nested
frame succeeds and overwrites the root `K`, while a global read of `K`
still returns the constant 1. -/
theorem c6_witness :
    envConstant c6vm 1 "K" = false ∧ nget c6vm.locals 2 = none ∧
    aget (frameOf c6vm 0).values "K" = some (.Number 5) ∧
    aget (frameOf c6vm 0).values ("__const__" ++ "K") = some (.Number 1) ∧
    (evaluate 2 (.Assign 2 "K" (.Literal 3 (.Number 2))) 1 c6vm =
      (.ok (.Number 2), setFrame c6vm 0
        { frameOf c6vm 0 with
          values := aput (frameOf c6vm 0).values "K" (.Number 2) }) ∧
     internalGlobal (setFrame c6vm 0
        { frameOf c6vm 0 with
          values := aput (frameOf c6vm 0).values "K" (.Number 2) }) 1 "K" =
       some (.Number 1)) :=
  ⟨rfl, rfl, rfl, rfl,
   c6_const_reassignment_rules.2.2 0 c6vm 1 "K" (.Number 2) 2 3 0
     (.Number 5) (.Number 1) rfl rfl
     (.step 1 0 0 rfl (by decide) (.here 0 rfl)) rfl rfl⟩

/-- One `foreach` pass whose body is `write var`: every element is
visited in source order, the loop variable is rebound to the current
element before each body run, and the element renderings are appended
to the output in order.  The body interpreter runs at constant fuel,
so the statement holds for lists of any length. -/
theorem foreach_write_iter (fi : Nat) (var : String) (vid : Nat) :
    ∀ (xs : List LiteralValue) (s : InterpState),
      nget s.vm.locals vid = some 0 →
      s.env < s.vm.frames.length →
      s.breaking = false → s.continuing = false → s.returning = false →
      ∃ vm2 : VMState,
        iterItems (fun item s2 =>
            interpretOne (fi + 2) (.Write [.Variable vid var])
              { s2 with vm := envDefine s2.vm s2.env var item }) xs s =
          (.ok (), ⟨vm2, s.env, s.specials, false, false, false⟩) ∧
        vm2.output = s.vm.output ++ xs.map (fun it => writeRender it.convert) ∧
        vm2.locals = s.vm.locals ∧
        vm2.frames.length = s.vm.frames.length := by
  intro xs
  induction xs with
  | nil =>
    rintro ⟨svm, senv, ssp, sb, sc, sr⟩ h1 h2 hb hc hr
    dsimp at h1 h2 hb hc hr ⊢
    subst hb; subst hc; subst hr
    exact ⟨svm, rfl, by simp, rfl, rfl⟩
  | cons item rest ih =>
    rintro ⟨svm, senv, ssp, sb, sc, sr⟩ h1 h2 hb hc hr
    dsimp at h1 h2 hb hc hr ⊢
    subst hb; subst hc; subst hr
    have hev : evaluate (fi + 1) (.Variable vid var) senv
        (envDefine svm senv var item) =
        (.ok item, envDefine svm senv var item) := by
      simp [evaluate, envGet, envDefine_locals, h1, internalAt,
        frameOf_envDefine_self svm senv var item h2, aget_aput_self]
    have hbody : interpretOne (fi + 2) (.Write [.Variable vid var])
        ⟨envDefine svm senv var item, senv, ssp, false, false, false⟩ =
        (.ok (), ⟨{ envDefine svm senv var item with
            output := (envDefine svm senv var item).output ++
              [writeRender item.convert] },
          senv, ssp, false, false, false⟩) := by
      simp [interpretOne, hev]
    have hloc2 : nget ({ envDefine svm senv var item with
        output := (envDefine svm senv var item).output ++
          [writeRender item.convert] } : VMState).locals vid = some 0 := by
      simpa [envDefine, setFrame] using h1
    have hlen2 : senv < ({ envDefine svm senv var item with
        output := (envDefine svm senv var item).output ++
          [writeRender item.convert] } : VMState).frames.length := by
      simp only [envDefine, setFrame, List.length_set]
      omega
    obtain ⟨vm2, hiter, hout, hloc, hlen⟩ :=
      ih ⟨{ envDefine svm senv var item with
            output := (envDefine svm senv var item).output ++
              [writeRender item.convert] },
          senv, ssp, false, false, false⟩ hloc2 hlen2 rfl rfl rfl
    refine ⟨vm2, ?_, ?_, ?_, ?_⟩
    · simp only [iterItems, Bool.false_eq_true, if_false, hbody, hiter]
    · rw [hout]
      simp [envDefine, setFrame]
    · rw [hloc]; simp [envDefine, setFrame]
    · rw [hlen]; simp [envDefine, setFrame]

/-- C5, amended: `foreach var in value` looks `value` up in the
CURRENT frame only.  (a) Bound there to a non-List value it is a fatal
error, as claimed.  (b) Not bound there — undeclared, or declared only
in an enclosing scope — the statement is silently skipped: no error,
no state change, contrary to the claim.  (c) Bound there to a List,
the body runs once per element in source order with `var` rebound to
each element (shown with the observable body `write var`). -/
theorem c5_foreach_current_frame_only :
    (∀ (f : Nat) (s : InterpState) (var value : String) (body : Stmt)
        (v : LiteralValue),
      getValue s.vm s.env value = some v → (∀ xs, v ≠ .List xs) →
      interpretOne (f + 1) (.Iteration var value body) s =
        (.error (.fatal "The interation value is not iterable."), s)) ∧
    (∀ (f : Nat) (s : InterpState) (var value : String) (body : Stmt),
      getValue s.vm s.env value = none →
      interpretOne (f + 1) (.Iteration var value body) s = (.ok (), s)) ∧
    (∀ (fi : Nat) (s : InterpState) (var value : String) (vid : Nat)
        (xs : List LiteralValue),
      getValue s.vm s.env value = some (.List xs) →
      nget s.vm.locals vid = some 0 →
      s.env < s.vm.frames.length →
      s.breaking = false → s.continuing = false → s.returning = false →
      (interpretOne (fi + 3)
        (.Iteration var value (.Write [.Variable vid var])) s).1 = .ok () ∧
      (interpretOne (fi + 3)
        (.Iteration var value (.Write [.Variable vid var])) s).2.vm.output =
        s.vm.output ++ xs.map (fun it => writeRender it.convert)) := by
  refine ⟨fun f s var value body v hgv hnl => ?_,
          fun f s var value body hgv => ?_,
          fun fi s var value vid xs hgv h1 h2 hb hc hr => ?_⟩
  · cases v with
    | List xs2 => exact absurd rfl (hnl xs2)
    | Number x => simp [interpretOne, hgv]
    | StringValue x => simp [interpretOne, hgv]
    | Callable c => simp [interpretOne, hgv]
    | True => simp [interpretOne, hgv]
    | False => simp [interpretOne, hgv]
    | Null => simp [interpretOne, hgv]
    | Clazz cn cm cs => simp [interpretOne, hgv]
    | ClassInstance ci cf => simp [interpretOne, hgv]
    | Module mn mm mc => simp [interpretOne, hgv]
  · simp [interpretOne, hgv]
  · obtain ⟨vm2, hiter, hout, _, _⟩ :=
      foreach_write_iter fi var vid xs s h1 h2 hb hc hr
    simp only [interpretOne] at hiter
    constructor
    · simp only [interpretOne, hgv, hiter]
    · simp only [interpretOne, hgv, hiter, hout]

/-- C5, witness: `foreach x in l` over `l = [1, 2]` in the `c5s` state
prints both elements in order. -/
theorem c5_witness :
    getValue c5s.vm c5s.env "l" = some (.List [.Number 1, .Number 2]) ∧
    nget c5s.vm.locals 0 = some 0 ∧ c5s.env < c5s.vm.frames.length ∧
    (interpretOne 3 (.Iteration "x" "l" (.Write [.Variable 0 "x"])) c5s).1 =
      .ok () ∧
    (interpretOne 3
        (.Iteration "x" "l" (.Write [.Variable 0 "x"])) c5s).2.vm.output =
      c5s.vm.output ++
        [LiteralValue.Number 1, LiteralValue.Number 2].map
          (fun it => writeRender it.convert) :=
  ⟨rfl, rfl, by decide,
   (c5_foreach_current_frame_only.2.2 0 c5s "x" "l" 0
      [.Number 1, .Number 2] rfl rfl (by decide) rfl rfl rfl).1,
   (c5_foreach_current_frame_only.2.2 0 c5s "x" "l" 0
      [.Number 1, .Number 2] rfl rfl (by decide) rfl rfl rfl).2⟩

/-- C7: closures capture the defining environment itself, not a
snapshot of its values.  An anonymous function value stores the
current environment address as `parent_env`; a function declaration
stores the declaring environment the same way; and calling a function
whose body reads a variable resolving to the captured frame (distance
1 from the call scope) yields whatever that frame holds at CALL time —
here a binding `n = v` installed after the closure was built. -/
theorem c7_closure_reads_call_time_env :
    (∀ (f : Nat) (ps : List String) (body : List Stmt) (envA id : Nat)
        (vm : VMState),
      evaluate (f + 1) (.AnonFunction id ps body) envA vm =
        (.ok (.Callable (.Function (.mk "anon_fc" ps.length envA ps body))),
         vm)) ∧
    (∀ (f : Nat) (name : String) (ps : List String) (body : List Stmt)
        (s : InterpState),
      interpretOne (f + 1) (.Function name ps body) s =
        (.ok (), { s with
            vm := envDefine s.vm s.env name
                (.Callable (.Function (build_fc s.env name ps body))) })) ∧
    (∀ (f : Nat) (vm : VMState) (a callEnv : Nat) (n : String)
        (v : LiteralValue) (vid : Nat),
      a < vm.frames.length →
      nget vm.locals vid = some 1 →
      (run_function (f + 3)
        (build_fc a "get" [] [.Return (some (.Variable vid n))])
        [] callEnv (envDefine vm a n v)).1 = .ok v) := by
  refine ⟨fun f ps body envA id vm => rfl,
          fun f name ps body s => rfl,
          fun f vm a callEnv n v vid h1 h2 => ?_⟩
  have hlvd : (envDefine vm a n v).frames.length = vm.frames.length := by
    simp [envDefine, setFrame]
  have hnew := frameOf_append_new (envDefine vm a n v) (⟨[], some a⟩ : Frame)
  have hold : frameOf
      { envDefine vm a n v with
        frames := (envDefine vm a n v).frames ++ [⟨[], some a⟩] } a =
      frameOf (envDefine vm a n v) a :=
    frameOf_append_old _ _ _ (by omega)
  have e2 : ((envDefine vm a n v).frames ++ [(⟨[], some a⟩ : Frame)]).getD
      (envDefine vm a n v).frames.length ⟨[], none⟩ = ⟨[], some a⟩ :=
    getD_append_len _ _ _
  have e3 : ((envDefine vm a n v).frames ++ [(⟨[], some a⟩ : Frame)]).getD
      a ⟨[], none⟩ = (envDefine vm a n v).frames.getD a ⟨[], none⟩ :=
    getD_append_lt _ _ _ _ (by omega)
  have e4 : frameOf (envDefine vm a n v) a =
      { frameOf vm a with values := aput (frameOf vm a).values n v } :=
    frameOf_envDefine_self vm a n v h1
  rw [frameOf] at e4
  simp only [List.getD_eq_getElem?_getD] at e3 e4
  have hev : evaluate (f + 1) (.Variable vid n)
      (envDefine vm a n v).frames.length
      { envDefine vm a n v with
        frames := (envDefine vm a n v).frames ++ [⟨[], some a⟩] } =
      (.ok v,
       { envDefine vm a n v with
         frames := (envDefine vm a n v).frames ++ [⟨[], some a⟩] }) := by
    simp [evaluate, envGet, envDefine_locals, h2, internalAt, frameOf,
      e2, e3, e4, aget_aput_self]
  have hret : interpretOne (f + 2) (.Return (some (.Variable vid n)))
      ⟨{ envDefine vm a n v with
         frames := (envDefine vm a n v).frames ++ [⟨[], some a⟩] },
        (envDefine vm a n v).frames.length, [], false, false, false⟩ =
      (.ok (),
       ⟨{ envDefine vm a n v with
          frames := (envDefine vm a n v).frames ++ [⟨[], some a⟩] },
         (envDefine vm a n v).frames.length, aput [] "return" v,
         false, false, true⟩) := by
    simp [interpretOne, hev]
  simp [run_function, build_fc, enclose, FunctionImpl.arity,
    FunctionImpl.parent_env, FunctionImpl.params, FunctionImpl.body,
    FunctionImpl.name, hret, aput, ainsert, aget]

/-- C7, witness: a closure built over frame 0, called after `x = 42`
was defined there, returns 42. -/
theorem c7_witness :
    0 < c7vm.frames.length ∧ nget c7vm.locals 4 = some 1 ∧
    (run_function 3 (build_fc 0 "get" [] [.Return (some (.Variable 4 "x"))])
      [] 0 (envDefine c7vm 0 "x" (.Number 42))).1 = .ok (.Number 42) :=
  ⟨by decide, rfl,
   c7_closure_reads_call_time_env.2.2 0 c7vm 0 0 "x" (.Number 42) 4
     (by decide) rfl⟩

/-- C10, witness: setting field `y` (absent) on the `c10vm` assignment
scenario, and assigning a plain variable, at concrete inputs. -/
theorem c10_witness :
    envConstant c10vm 0 "y" = false ∧ nget c10vm.locals 5 = some 0 ∧
    evaluate 2 (.Assign 5 "y" (.Literal 9 (.Number 7))) 0 c10vm =
      (.ok (.Number 7), envDefine c10vm 0 "y" (.Number 7)) :=
  ⟨rfl, rfl,
   c10_set_in_place_null_vs_assign_value.2.2.2 0 c10vm 0 "y" (.Number 7) 5 9
     rfl rfl⟩

end Nyx
